import Mathlib

/-!
# Verification of the agent-studio discovery and consistency engine

Shallow embedding of the TypeScript frontend of `agent-studio` (the
frontmatter utilities of `src/lib/api.ts`, the entity data model of
`src/lib/types.ts`, the zustand store of `src/store/appStore.ts` and the
bulk-fix handler of `src/components/FixConfigModal.tsx`), together with
spec-modelled definitions for the Rust backend commands that are not part
of the frontend sources (config-state classification, fix operation and
duplicate resolution).

String values are modelled by Lean `String`; positions are character
indices, which coincides with JavaScript UTF-16 indices on the inputs
considered here. JavaScript string primitives (`trim`, `indexOf`, `slice`,
`split`, `startsWith`, ...) are given explicit executable models below.
-/

/-- The character `'` (used by the parser's single-quote branch). -/
def squote : Char := Char.ofNat 39

/-- JavaScript whitespace recognised by `String.prototype.trim` (ASCII part). -/
def jsWhitespace (c : Char) : Bool :=
  c = ' ' || c = '\t' || c = '\n' || c = '\r' || c = Char.ofNat 11 || c = Char.ofNat 12

/-- Model of JavaScript `s.trim()`. -/
def jsTrim (s : String) : String :=
  String.mk (((s.data.dropWhile jsWhitespace).reverse.dropWhile jsWhitespace).reverse)

/-- Model of JavaScript `s.startsWith(pre)`. -/
def jsStartsWith (s pre : String) : Bool :=
  pre.data.isPrefixOf s.data

/-- Model of JavaScript `s.endsWith(suf)`. -/
def jsEndsWith (s suf : String) : Bool :=
  suf.data.reverse.isPrefixOf s.data.reverse

/-- Scanner behind `indexOf`: first position `≥ i` where `needle` occurs. -/
def jsIndexOfAux (needle : List Char) (hay : List Char) (i : Nat) : Option Nat :=
  if needle.isPrefixOf hay then some i
  else
    match hay with
    | [] => none
    | _ :: t => jsIndexOfAux needle t (i + 1)

/-- Model of JavaScript `s.indexOf(needle, start)` (`none` for `-1`). -/
def jsIndexOf (s needle : String) (start : Nat) : Option Nat :=
  jsIndexOfAux needle.data (s.data.drop start) start

/-- Model of JavaScript `s.includes(sub)`. -/
def jsIncludes (s sub : String) : Bool :=
  (jsIndexOf s sub 0).isSome

/-- Model of JavaScript `s.slice(a, b)` for `0 ≤ a ≤ b`. -/
def jsSlice (s : String) (a b : Nat) : String :=
  String.mk ((s.data.drop a).take (b - a))

/-- Model of JavaScript `s.slice(a)` for `0 ≤ a`. -/
def jsSliceFrom (s : String) (a : Nat) : String :=
  String.mk (s.data.drop a)

/-- Model of JavaScript `s.slice(1, -1)` (drop first and last character). -/
def jsSliceDropEnds (s : String) : String :=
  String.mk ((s.data.drop 1).dropLast)

/-- Split a character list at every occurrence of `c` (JS `split` with a
one-character separator). -/
def splitOnChar (c : Char) : List Char → List (List Char)
  | [] => [[]]
  | x :: t =>
    match splitOnChar c t with
    | [] => [[]]
    | h :: r => if x = c then [] :: h :: r else (x :: h) :: r

/-- Model of JavaScript `s.split(sep)` for a one-character separator. -/
def jsSplitChar (c : Char) (s : String) : List String :=
  (splitOnChar c s.data).map String.mk

/-- Model of JavaScript `xs.join(sep)`. -/
def joinSep (sep : String) : List String → String
  | [] => ""
  | [x] => x
  | x :: y :: t => x ++ sep ++ joinSep sep (y :: t)

/-- Model of `value.replace(/"/g, '\\"')`. -/
def escapeQuotes (s : String) : String :=
  String.mk (s.data.flatMap (fun c => if c = '"' then ['\\', '"'] else [c]))

/-!
## JavaScript numeric conversion

`Number(value)` on a (trimmed) string, per the `StringNumericLiteral`
grammar: empty ⇒ 0, `Infinity` with optional sign, `0x`/`0b`/`0o`
integers, or a signed decimal literal with optional fraction and exponent.
`none` stands for `NaN`. Finite values are carried as exact rationals; the
IEEE-754 rounding of a literal is not modelled since no verified claim
depends on the magnitude of a parsed number.
-/

/-- A JavaScript number that is not `NaN`. -/
inductive JsNum
  | finite (q : ℚ)
  | posInf
  | negInf
deriving DecidableEq, Repr

/-- Numeric value of a digit list in base 10. -/
def digitsVal (l : List Char) : Nat :=
  l.foldl (fun a c => a * 10 + (c.toNat - '0'.toNat)) 0

/-- Decimal digit test. -/
def isDigitChar (c : Char) : Bool := '0' ≤ c && c ≤ '9'

/-- Value of one digit in a given base, if valid. -/
def radixDigit (radix : Nat) (c : Char) : Option Nat :=
  let v :=
    if '0' ≤ c ∧ c ≤ '9' then some (c.toNat - '0'.toNat)
    else if 'a' ≤ c ∧ c ≤ 'f' then some (c.toNat - 'a'.toNat + 10)
    else if 'A' ≤ c ∧ c ≤ 'F' then some (c.toNat - 'A'.toNat + 10)
    else none
  match v with
  | some n => if n < radix then some n else none
  | none => none

/-- Value of a non-empty digit string in a given base, if all digits valid. -/
def parseRadix (radix : Nat) : List Char → Option Nat
  | [] => none
  | l => l.foldl (fun acc c =>
      match acc, radixDigit radix c with
      | some a, some d => some (a * radix + d)
      | _, _ => none) (some 0)

/-- Exponent part of a decimal literal: empty, or `e`/`E`, an optional
sign, and at least one digit, consuming the whole remainder. -/
def parseExpPart : List Char → Option Int
  | [] => some 0
  | c :: rest =>
    if c = 'e' ∨ c = 'E' then
      match rest with
      | '+' :: ds => if ds ≠ [] ∧ ds.all isDigitChar then some (digitsVal ds) else none
      | '-' :: ds => if ds ≠ [] ∧ ds.all isDigitChar then some (-(digitsVal ds : Int)) else none
      | ds => if ds ≠ [] ∧ ds.all isDigitChar then some (digitsVal ds) else none
    else none

/-- Apply a power-of-ten exponent to a rational. -/
def applyExp (q : ℚ) (e : Int) : ℚ :=
  if 0 ≤ e then q * 10 ^ e.toNat else q / 10 ^ (-e).toNat

/-- Unsigned decimal literal: `digits [. digits] [exp]` or `. digits [exp]`. -/
def parseUnsignedDec (l : List Char) : Option ℚ :=
  let ip := l.takeWhile isDigitChar
  let rest := l.dropWhile isDigitChar
  match rest with
  | '.' :: rest2 =>
    let fp := rest2.takeWhile isDigitChar
    let rest3 := rest2.dropWhile isDigitChar
    if ip = [] ∧ fp = [] then none
    else (parseExpPart rest3).map fun e =>
      applyExp ((digitsVal ip : ℚ) + (digitsVal fp : ℚ) / 10 ^ fp.length) e
  | _ =>
    if ip = [] then none
    else (parseExpPart rest).map fun e => applyExp (digitsVal ip : ℚ) e

/-- Signed decimal literal. -/
def parseDecLiteral : List Char → Option ℚ
  | '+' :: rest => parseUnsignedDec rest
  | '-' :: rest => (parseUnsignedDec rest).map Neg.neg
  | l => parseUnsignedDec l

/-- Model of JavaScript `Number(s)` on strings; `none` is `NaN`. -/
def jsStringToNumber (s : String) : Option JsNum :=
  let t := (jsTrim s).data
  if t = [] then some (.finite 0)
  else if t = "Infinity".data ∨ t = "+Infinity".data then some .posInf
  else if t = "-Infinity".data then some .negInf
  else
    match t with
    | '0' :: x :: rest =>
      if x = 'x' ∨ x = 'X' then (parseRadix 16 rest).map (fun n => .finite n)
      else if x = 'b' ∨ x = 'B' then (parseRadix 2 rest).map (fun n => .finite n)
      else if x = 'o' ∨ x = 'O' then (parseRadix 8 rest).map (fun n => .finite n)
      else (parseDecLiteral t).map .finite
    | _ => (parseDecLiteral t).map .finite

/-!
## FrontmatterParser (`parseFrontmatter` / `generateFrontmatter` /
`createMarkdownContent` from `src/lib/api.ts`)
-/

/-- A typed frontmatter value as produced by `parseFrontmatter`. -/
inductive FmValue
  | str (s : String)
  | list (xs : List String)
  | boolean (b : Bool)
  | num (n : JsNum)
deriving DecidableEq, Repr

/-- JavaScript object insertion: overwrite in place if the key exists,
otherwise append (insertion order is preserved). -/
def objInsert (obj : List (String × FmValue)) (k : String) (v : FmValue) :
    List (String × FmValue) :=
  if obj.any (fun p => p.1 = k) then
    obj.map (fun p => if p.1 = k then (k, v) else p)
  else obj ++ [(k, v)]

/-- Typing of a non-empty trimmed scalar value (`parseFrontmatter`,
the chain of checks on `value`): inline arrays for comma-containing
values not starting with a double quote, then `"`-quoted, then `'`-quoted,
then `true`/`false`, then numbers, else the bare string. -/
def typeValue (value : String) : FmValue :=
  if jsIncludes value "," ∧ ¬ jsStartsWith value "\"" then
    .list ((jsSplitChar ',' value).map jsTrim)
  else if jsStartsWith value "\"" ∧ jsEndsWith value "\"" then
    .str (jsSliceDropEnds value)
  else if jsStartsWith value (String.mk [squote]) ∧ jsEndsWith value (String.mk [squote]) then
    .str (jsSliceDropEnds value)
  else if value = "true" then .boolean true
  else if value = "false" then .boolean false
  else
    match jsStringToNumber value with
    | some n => .num n
    | none => .str value

/-- Loop state of `parseFrontmatter`: the object built so far, the pending
block-list key, the in-array flag and the collected block-list items. -/
structure FmState where
  fm : List (String × FmValue)
  currentKey : String
  inArray : Bool
  arrayValues : List String
deriving Repr

/-- `lines[lines.indexOf(line) + 1]?.trim().startsWith('- ')`: the lookahead
used to detect the start of a block list (note it looks after the first
occurrence of the line's text). -/
def nextLineIsDash (lines : List String) (line : String) : Bool :=
  match lines.get? (lines.indexOf line + 1) with
  | some l => jsStartsWith (jsTrim l) "- "
  | none => false

/-- One iteration of the `for (const line of lines)` loop of
`parseFrontmatter`. -/
def fmStep (lines : List String) (st : FmState) (line : String) : FmState :=
  let trimmedLine := jsTrim line
  if st.inArray ∧ jsStartsWith trimmedLine "- " then
    { st with arrayValues := st.arrayValues ++ [jsTrim (jsSliceFrom trimmedLine 2)] }
  else
    let st :=
      if st.inArray then
        { st with fm := objInsert st.fm st.currentKey (.list st.arrayValues),
                  arrayValues := [], inArray := false }
      else st
    match jsIndexOf trimmedLine ":" 0 with
    | none => st
    | some colonIndex =>
      if colonIndex = 0 then st
      else
        let key := jsTrim (jsSlice trimmedLine 0 colonIndex)
        let value := jsTrim (jsSliceFrom trimmedLine (colonIndex + 1))
        if value = "" ∧ nextLineIsDash lines line then
          { st with currentKey := key, inArray := true }
        else if value = "" then st
        else { st with fm := objInsert st.fm key (typeValue value) }

/-- Result shape of `parseFrontmatter`. -/
structure FmResult where
  frontmatter : Option (List (String × FmValue))
  body : String
deriving DecidableEq, Repr

/-- Model of `parseFrontmatter` (`src/lib/api.ts`). The JavaScript
`try`/`catch` is not modelled because no statement of the loop can throw;
the `catch` branch is dead code. -/
def parseFrontmatter (content : String) : FmResult :=
  if ¬ jsStartsWith content "---" then ⟨none, content⟩
  else
    match jsIndexOf content "---" 3 with
    | none => ⟨none, content⟩
    | some endIndex =>
      let yamlStr := jsTrim (jsSlice content 3 endIndex)
      let body := jsTrim (jsSliceFrom content (endIndex + 3))
      let lines := jsSplitChar '\n' yamlStr
      let final := lines.foldl (fmStep lines) ⟨[], "", false, []⟩
      let fm :=
        if final.inArray ∧ final.arrayValues ≠ [] then
          objInsert final.fm final.currentKey (.list final.arrayValues)
        else final.fm
      ⟨some fm, body⟩

/-- Input domain of `generateFrontmatter` modelled here: `null`/`undefined`
values, strings, string arrays and booleans. Numbers and nested objects
(serialised by JavaScript float formatting and `JSON.stringify`) are
outside the modelled domain; no verified claim involves them. -/
inductive GenValue
  | nullv
  | str (s : String)
  | arr (xs : List String)
  | boolean (b : Bool)
deriving DecidableEq, Repr

/-- Lines contributed by one `[key, value]` entry of `generateFrontmatter`. -/
def genLines (key : String) (v : GenValue) : List String :=
  match v with
  | .nullv => []
  | .str value =>
    if jsIncludes value ":" ∨ jsIncludes value "#" ∨ jsIncludes value "\n" then
      [key ++ ": \"" ++ escapeQuotes value ++ "\""]
    else [key ++ ": " ++ value]
  | .arr xs =>
    if xs = [] then []
    else if xs.all (fun v => v.length < 20) ∧ xs.length ≤ 5 then
      [key ++ ": " ++ joinSep ", " xs]
    else [key ++ ":"] ++ xs.map (fun item => "  - " ++ item)
  | .boolean b => [key ++ ": " ++ (if b then "true" else "false")]

/-- Model of `generateFrontmatter` (`src/lib/api.ts`). -/
def generateFrontmatter (data : List (String × GenValue)) : String :=
  joinSep "\n" (["---"] ++ data.flatMap (fun p => genLines p.1 p.2) ++ ["---"])

/-- Model of `createMarkdownContent` (`src/lib/api.ts`). -/
def createMarkdownContent (frontmatter : List (String × GenValue)) (body : String) : String :=
  generateFrontmatter frontmatter ++ "\n\n" ++ body

/-!
## Entity data model (`src/lib/types.ts`)
-/

/-- Discriminator for which coding assistant tool an entity belongs to. -/
inductive ToolType
  | claude
  | opencode
deriving DecidableEq, Repr

/-- Entity type discriminator (`EntityType`). -/
inductive EntityType
  | settings
  | memory
  | agent
  | skill
  | command
  | hook
  | plugin
  | mcp
deriving DecidableEq, Repr

/-- A JSON-like value, modelling TypeScript data whose precise schema is
not consumed by any verified claim (parsed settings, plugin manifests,
MCP server configs). -/
inductive JsValue
  | nullv
  | boolean (b : Bool)
  | num (n : JsNum)
  | str (s : String)
  | arr (xs : List JsValue)
  | obj (fields : List (String × JsValue))

/-- Common fields present on all entities (`BaseEntityFields`). The
`scope` field is a plain string in the source (`"global"` or
`"project"`). Timestamps are integers. -/
structure BaseEntityFields where
  id : String
  name : String
  path : String
  scope : String
  project_path : Option String
  is_symlink : Bool
  symlink_target : Option String
  content : Option String
  last_modified : Int
  tool : ToolType

/-- `SettingsEntity.variant`. -/
inductive SettingsVariant
  | global
  | project
  | local
deriving DecidableEq, Repr

/-- Settings entity; `parsed` is the structured config or `null` on parse
failure, modelled as a raw JSON value. -/
structure SettingsEntity extends BaseEntityFields where
  variant : SettingsVariant
  parsed : Option JsValue

/-- `MemoryEntity.variant`. -/
inductive MemoryVariant
  | root
  | dotclaude
  | dotopencode
  | globalv
deriving DecidableEq, Repr

/-- Memory entity (CLAUDE.md / AGENTS.md files). -/
structure MemoryEntity extends BaseEntityFields where
  variant : MemoryVariant

/-- Agent entity; the open frontmatter record is modelled by the parser's
output type. -/
structure AgentEntity extends BaseEntityFields where
  frontmatter : Option (List (String × FmValue))

/-- Skill entity. -/
structure SkillEntity extends BaseEntityFields where
  skill_dir : String
  frontmatter : Option (List (String × FmValue))
  supporting_files : List String

/-- Command entity; `nspace` models the source field `namespace` (a
reserved word in Lean). -/
structure CommandEntity extends BaseEntityFields where
  nspace : Option String
  frontmatter : Option (List (String × FmValue))

/-- Hook event names (`HookEventType`). -/
inductive HookEventType
  | preToolUse
  | permissionRequest
  | postToolUse
  | notificationEvent
  | userPromptSubmit
  | stop
  | subagentStop
  | preCompact
  | sessionStart
  | sessionEnd
  | subagentStart
deriving DecidableEq, Repr

/-- One hook definition entry (`HookDefinition`). -/
structure HookDefinition where
  type : String
  command : Option String
  prompt : Option String
  timeout : Option Int
  once : Option Bool

/-- Hook source scope (`'global' | 'project' | 'local'`). -/
inductive HookSource
  | global
  | project
  | local
deriving DecidableEq, Repr

/-- Hook entity (extracted from settings, no base fields). -/
structure HookEntity where
  id : String
  event : HookEventType
  matcher : Option String
  hooks : List HookDefinition
  source : HookSource
  source_path : String
  tool : ToolType

/-- Plugin entity; the manifest JSON is not consumed by any claim. -/
structure PluginEntity extends BaseEntityFields where
  plugin_dir : String
  manifest : Option JsValue
  has_commands : Bool
  has_agents : Bool
  has_skills : Bool
  has_hooks : Bool
  has_mcp : Bool
  has_lsp : Bool

/-- Transport classification of an MCP server. -/
inductive McpTransport
  | stdio
  | http
  | sse
  | unknown
deriving DecidableEq, Repr

/-- MCP server entity (no base fields in the source either). -/
structure McpServerEntity where
  id : String
  name : String
  scope : String
  transport : McpTransport
  config : JsValue
  source_path : String
  is_from_plugin : Bool
  plugin_name : Option String
  tool : ToolType

/-- One member of a duplicate group (`DuplicateEntity` in the source). -/
structure DuplicateEntity where
  id : String
  path : String
  scope : String
  project_path : Option String
  precedence : Nat
deriving DecidableEq, Repr

/-- A duplicate group (`DuplicateGroup`): an entity kind plus logical name
and the ordered members. -/
structure DuplicateGroup where
  name : String
  entity_type : EntityType
  entities : List DuplicateEntity
deriving DecidableEq, Repr

/-- Symlink audit record (`SymlinkInfo`). -/
structure SymlinkInfo where
  path : String
  target : String
  target_exists : Bool
  entity_type : Option String
  entity_id : Option String

/-- Status of a file: whether it is a file, a symlink, or missing
(`FileStatus`, `src/lib/types.ts`). -/
inductive FileStatus
  | file
  | symlink
  | missing
deriving DecidableEq, Repr

/-- Configuration state classification for AGENTS.md / CLAUDE.md
consistency (`ConfigStateType`, `src/lib/types.ts`). -/
inductive ConfigStateType
  | correct
  | missing_symlink
  | needs_migration
  | conflict
  | empty
deriving DecidableEq, Repr

/-- Detailed configuration state for a project (`ConfigState`). -/
structure ConfigState where
  agents_md_status : FileStatus
  claude_md_status : FileStatus
  claude_md_symlink_target : Option String
  config_state : ConfigStateType
  can_auto_fix : Bool
deriving DecidableEq, Repr

/-- Aggregate entity counts of one project (`EntityCounts`). -/
structure EntityCounts where
  settings : Nat
  memory : Nat
  agents : Nat
  skills : Nat
  commands : Nat
  plugins : Nat
  hooks : Nat
  mcp : Nat

/-- One discovered project (`ProjectInfo`). -/
structure ProjectInfo where
  path : String
  name : String
  has_claude_dir : Bool
  has_opencode_dir : Bool
  has_mcp_json : Bool
  has_claude_md : Bool
  has_root_claude_md : Bool
  has_agents_md : Bool
  has_opencode_json : Bool
  entity_counts : EntityCounts
  config_state : Option ConfigState

/-!
## ConfigConsistencyEngine (spec-modelled)

The Rust backend implementing `get_project_config_state` and
`fix_project_config` is not part of the frontend sources; the engine is
modelled from the specification (§4.5) over an abstract per-project
filesystem holding the two memory files.
-/

/-- One filesystem node for a memory-file path. -/
inductive FileNode
  | missing
  | fileContent (text : String)
  | symlinkTo (target : String)
deriving DecidableEq, Repr

/-- Abstract per-project filesystem: the legacy file (CLAUDE.md) and the
universal file (AGENTS.md). -/
structure ProjFS where
  claudeMd : FileNode
  agentsMd : FileNode
deriving DecidableEq, Repr

/-- Status of one node. -/
def FileNode.status : FileNode → FileStatus
  | .missing => .missing
  | .fileContent _ => .file
  | .symlinkTo _ => .symlink

/-- Symlink target of the legacy file, if it is a link. -/
def ProjFS.claudeTarget (fs : ProjFS) : Option String :=
  match fs.claudeMd with
  | .symlinkTo t => some t
  | _ => none

/-- Name of the universal memory file. -/
def agentsMdName : String := "AGENTS.md"

/-- Whether the legacy file is a symlink pointing at the universal file. -/
def ProjFS.linkCorrect (fs : ProjFS) : Bool :=
  fs.claudeTarget = some agentsMdName

/-- Modelled from the spec: the §4.5 decision table of the Rust
`get_project_config_state` classification, as a function of the legacy
status, the universal status and (for a legacy symlink) whether the link
points at the universal file. Combinations outside the table are `none`;
the spec does not define them. -/
def classifyConfig : FileStatus → FileStatus → Bool → Option ConfigStateType
  | .symlink, .file, true => some .correct
  | .symlink, .file, false => some .conflict
  | .missing, .file, _ => some .missing_symlink
  | .file, .missing, _ => some .needs_migration
  | .file, .file, _ => some .conflict
  | .missing, .missing, _ => some .empty
  | _, _, _ => none

/-- `can_auto_fix` is true for every classification except `conflict`. -/
def canAutoFix (c : ConfigStateType) : Bool :=
  c ≠ .conflict

/-- Modelled from the spec: the Rust `get_project_config_state` command,
assembling the `ConfigState` record returned across the boundary. -/
def getProjectConfigState (fs : ProjFS) : Option ConfigState :=
  (classifyConfig fs.claudeMd.status fs.agentsMd.status fs.linkCorrect).map
    fun c =>
      { agents_md_status := fs.agentsMd.status
        claude_md_status := fs.claudeMd.status
        claude_md_symlink_target := fs.claudeTarget
        config_state := c
        can_auto_fix := canAutoFix c }

/-- Content of the legacy file for migration (empty when not a real file). -/
def ProjFS.claudeContent (fs : ProjFS) : String :=
  match fs.claudeMd with
  | .fileContent t => t
  | _ => ""

/-- Modelled from the spec: the Rust `fix_project_config` command. Per
§4.5: `missing_symlink` creates the legacy symlink; `needs_migration`
moves the legacy content into the universal file then replaces the legacy
file with a symlink; `empty` creates an empty universal file plus the
symlink; `conflict` returns a descriptive failure; an already-`correct`
project is a no-op success. The result pairs the new filesystem with the
human-readable message. -/
def fixProjectConfig (fs : ProjFS) : Except String (ProjFS × String) :=
  match (getProjectConfigState fs).map ConfigState.config_state with
  | some .correct => .ok (fs, "Already configured correctly")
  | some .missing_symlink =>
    .ok ({ fs with claudeMd := .symlinkTo agentsMdName }, "Created CLAUDE.md symlink")
  | some .needs_migration =>
    .ok ({ claudeMd := .symlinkTo agentsMdName,
           agentsMd := .fileContent fs.claudeContent },
         "Migrated CLAUDE.md content to AGENTS.md")
  | some .empty =>
    .ok ({ claudeMd := .symlinkTo agentsMdName, agentsMd := .fileContent "" },
         "Created AGENTS.md and CLAUDE.md symlink")
  | some .conflict => .error "Both files exist with content; manual resolution required"
  | none => .error "Unsupported file configuration"

/-!
## DuplicateResolver (spec-modelled)

The Rust backend implementing `find_duplicates` is not part of the
frontend sources; the resolver is modelled from the specification (§4.3):
group entities (hooks and MCP servers excluded) by (kind, logical name),
keep groups of size ≥ 2, order each group most-specific scope first
(project-local override, then project, then global, discovery order
within equal scope) and assign dense ranks from 0.
-/

/-- Scope specificity of a discovered entity. -/
inductive ScopeLevel
  | localOverride
  | project
  | global
deriving DecidableEq, Repr

/-- Numeric specificity (smaller is more specific). -/
def scopeRank : ScopeLevel → Nat
  | .localOverride => 0
  | .project => 1
  | .global => 2

/-- Serialised scope string of a member record. -/
def scopeName : ScopeLevel → String
  | .localOverride => "local"
  | .project => "project"
  | .global => "global"

/-- Input record of the resolver: the fields of a discovered entity the
grouping and ordering depend on. -/
structure RawEntity where
  id : String
  entityType : EntityType
  name : String
  scope : ScopeLevel
  path : String
  project_path : Option String
deriving DecidableEq, Repr

/-- Grouping key: (entity kind, logical name). -/
def dupKey (e : RawEntity) : EntityType × String :=
  (e.entityType, e.name)

/-- Hooks and MCP servers repeat by design and are excluded from
duplicate grouping. -/
def isGroupable (e : RawEntity) : Bool :=
  e.entityType ≠ .hook ∧ e.entityType ≠ .mcp

/-- First-occurrence deduplication of keys, preserving discovery order. -/
def dedupFirstAux (seen : List (EntityType × String)) :
    List (EntityType × String) → List (EntityType × String)
  | [] => []
  | k :: t =>
    if k ∈ seen then dedupFirstAux seen t
    else k :: dedupFirstAux (k :: seen) t

/-- A group ordered most-specific scope first; within equal scope the
discovery order is kept (the concatenation of the three filters is a
stable bucket sort by `scopeRank`). -/
def orderByScope (group : List RawEntity) : List RawEntity :=
  group.filter (fun e => e.scope = .localOverride) ++
  group.filter (fun e => e.scope = .project) ++
  group.filter (fun e => e.scope = .global)

/-- Member record for one entity with its precedence rank. -/
def toMember (e : RawEntity) (rank : Nat) : DuplicateEntity :=
  { id := e.id, path := e.path, scope := scopeName e.scope,
    project_path := e.project_path, precedence := rank }

/-- Assign consecutive ranks by position. -/
def assignRanks : List RawEntity → Nat → List DuplicateEntity
  | [], _ => []
  | e :: t, n => toMember e n :: assignRanks t (n + 1)

/-- Modelled from the spec: the Rust `find_duplicates` resolver. -/
def findDuplicates (all : List RawEntity) : List DuplicateGroup :=
  let es := all.filter isGroupable
  let keys := dedupFirstAux [] (es.map dupKey)
  keys.filterMap fun k =>
    let group := es.filter (fun e => dupKey e = k)
    if 2 ≤ group.length then
      some { name := k.2, entity_type := k.1,
             entities := assignRanks (orderByScope group) 0 }
    else none

/-!
## Application store (`src/store/appStore.ts`)
-/

/-- Active view discriminator (`ViewType`). -/
inductive ViewType
  | dashboard
  | project
  | health
  | settings
  | memory
  | agents
  | skills
  | commands
  | hooks
  | plugins
  | mcp
deriving DecidableEq, Repr

/-- Scope filter (`FilterScope`). -/
inductive FilterScope
  | all
  | global
  | project
deriving DecidableEq, Repr

/-- Tool filter: `'all' | ToolType`. -/
inductive ToolFilter
  | all
  | tool (t : ToolType)
deriving DecidableEq, Repr

/-- Theme (`'dark' | 'light'`). -/
inductive Theme
  | dark
  | light
deriving DecidableEq, Repr

/-- Toast type discriminator. -/
inductive ToastType
  | success
  | error
  | info
  | warning
deriving DecidableEq, Repr

/-- A toast notification (`Toast`). -/
structure Toast where
  id : String
  type : ToastType
  title : String
  message : Option String
  duration : Option Int

/-- Union of all displayable entities (`DisplayableEntity`). -/
inductive DisplayableEntity
  | settings (e : SettingsEntity)
  | memory (e : MemoryEntity)
  | agent (e : AgentEntity)
  | skill (e : SkillEntity)
  | command (e : CommandEntity)
  | plugin (e : PluginEntity)
  | hook (e : HookEntity)
  | mcp (e : McpServerEntity)

/-- One command-palette item (`CommandPaletteItem`). -/
structure CommandPaletteItem where
  id : String
  name : String
  description : Option String
  scope : String
  projectName : Option String
  entityType : EntityType
  path : String
  isSymlink : Option Bool
  isDuplicate : Option Bool
  precedence : Option Nat
  tool : ToolType

/-- One command-palette section (`CommandPaletteSection`). -/
structure CommandPaletteSection where
  id : String
  title : String
  entityType : EntityType
  items : List CommandPaletteItem

/-- The data fields of the zustand store (`AppState`). Action closures are
modelled as the top-level functions below; the JS `Set<string>` of
previously seen item ids is modelled as a list. -/
structure AppState where
  isLoading : Bool
  lastDiscovery : Option Int
  error : Option String
  globalConfigPath : String
  homeDirectory : String
  projects : List ProjectInfo
  settings : List SettingsEntity
  memory : List MemoryEntity
  agents : List AgentEntity
  skills : List SkillEntity
  commands : List CommandEntity
  hooks : List HookEntity
  plugins : List PluginEntity
  mcpServers : List McpServerEntity
  duplicates : List DuplicateGroup
  symlinks : List SymlinkInfo
  activeView : ViewType
  selectedEntity : Option DisplayableEntity
  searchQuery : String
  filterScope : FilterScope
  filterProject : Option String
  filterTool : ToolFilter
  isPanelOpen : Bool
  theme : Theme
  isGlobalSearchOpen : Bool
  globalSearchQuery : String
  recentEntityIds : List String
  toasts : List Toast
  hasInitiallyAnimated : Bool
  previousItemIds : List String
  _cachedSections : Option (List CommandPaletteSection)

/-- The `setActiveView` action: a zustand `set` with a partial record,
merged into the current state (all other fields unchanged). -/
def setActiveView (s : AppState) (view : ViewType) : AppState :=
  { s with
    activeView := view
    selectedEntity := none
    isPanelOpen := false
    searchQuery := ""
    filterScope := .all
    filterProject := none
    _cachedSections := none }

/-- The list update performed by the `addToRecentEntities` action: remove
the id if already present, add it to the front, keep at most 5
(`[id, ...filtered].slice(0, 5)`). The `localStorage` mirror write is a
side effect outside the store state. -/
def addToRecentEntitiesList (recentEntityIds : List String) (id : String) : List String :=
  (id :: recentEntityIds.filter (fun existingId => existingId ≠ id)).take 5

/-- The `addToRecentEntities` action on the store state. -/
def addToRecentEntities (s : AppState) (id : String) : AppState :=
  { s with recentEntityIds := addToRecentEntitiesList s.recentEntityIds id }

/-!
## Bulk fix (`src/components/FixConfigModal.tsx`)
-/

/-- Per-project fix progress (`FixStatus`). -/
inductive FixStatus
  | pending
  | fixing
  | success
  | error
deriving DecidableEq, Repr

/-- Per-project row state of the modal (`ProjectFixState`). -/
structure ProjectFixState where
  path : String
  name : String
  configState : ConfigStateType
  selected : Bool
  status : FixStatus
  message : Option String
deriving DecidableEq, Repr

/-- The summary toast posted by `handleFixSelected` (an `addToast`
argument; the store assigns the id). -/
structure SummaryToast where
  type : ToastType
  title : String
  message : String
deriving DecidableEq, Repr

/-- The sequential `for (const project of toFix)` loop of
`handleFixSelected`: mark the project as fixing, await
`fixProjectConfig(project.path)`, then record success or error on the row
with the matching path. `fixOutcome` abstracts the IPC call: `ok` is the
resolved message, `error` the caught error message. -/
def runFixes (fixOutcome : String → Except String String) :
    List ProjectFixState → List ProjectFixState → List ProjectFixState
  | states, [] => states
  | states, project :: rest =>
    let fixing := states.map fun p =>
      if p.path = project.path then { p with status := .fixing } else p
    let afterResult :=
      match fixOutcome project.path with
      | .ok message => fixing.map fun p =>
          if p.path = project.path then { p with status := .success, message := some message }
          else p
      | .error errorMessage => fixing.map fun p =>
          if p.path = project.path then { p with status := .error, message := some errorMessage }
          else p
    runFixes fixOutcome afterResult rest

/-- Model of `handleFixSelected`. Returns the final row states and the
summary toast (`none` when the selection is empty and the handler returns
early). The success/error counts are computed from `projectStates` — the
array captured by the handler's closure at render time — not from the
updated state, exactly as in the source. -/
def handleFixSelected (fixOutcome : String → Except String String)
    (projectStates : List ProjectFixState) :
    List ProjectFixState × Option SummaryToast :=
  let toFix := projectStates.filter (fun p => p.selected)
  if toFix.length = 0 then (projectStates, none)
  else
    let final := runFixes fixOutcome projectStates toFix
    let successCount := (projectStates.filter (fun p => p.status = .success)).length
    let errorCount := (projectStates.filter (fun p => p.status = .error)).length
    let toast :=
      if errorCount = 0 then
        { type := .success, title := "All configs fixed",
          message := "Successfully fixed " ++ toString successCount ++ " project(s)" }
      else
        { type := .warning, title := "Some fixes failed",
          message := "Fixed " ++ toString successCount ++ ", failed " ++ toString errorCount }
    (final, some toast)

/-- The per-row effect of one fix call: what the loop body writes to the
row whose path was fixed (status and message from its own outcome). -/
def applyOutcome (fixOutcome : String → Except String String)
    (p : ProjectFixState) : ProjectFixState :=
  match fixOutcome p.path with
  | .ok message => { p with status := .success, message := some message }
  | .error errorMessage => { p with status := .error, message := some errorMessage }

/-!
## Theorems
-/

/-- Claim C10: `setActiveView` resets the search query, the scope filter,
the project filter, the selected entity and the detail panel, while the
tool filter, the theme and every discovered collection are unchanged. -/
theorem setActiveView_resets_and_preserves (s : AppState) (view : ViewType) :
    (setActiveView s view).activeView = view ∧
    (setActiveView s view).searchQuery = "" ∧
    (setActiveView s view).filterScope = FilterScope.all ∧
    (setActiveView s view).filterProject = none ∧
    (setActiveView s view).selectedEntity = none ∧
    (setActiveView s view).isPanelOpen = false ∧
    (setActiveView s view).filterTool = s.filterTool ∧
    (setActiveView s view).theme = s.theme ∧
    (setActiveView s view).projects = s.projects ∧
    (setActiveView s view).settings = s.settings ∧
    (setActiveView s view).memory = s.memory ∧
    (setActiveView s view).agents = s.agents ∧
    (setActiveView s view).skills = s.skills ∧
    (setActiveView s view).commands = s.commands ∧
    (setActiveView s view).hooks = s.hooks ∧
    (setActiveView s view).plugins = s.plugins ∧
    (setActiveView s view).mcpServers = s.mcpServers ∧
    (setActiveView s view).duplicates = s.duplicates ∧
    (setActiveView s view).symlinks = s.symlinks :=
  ⟨rfl, rfl, rfl, rfl, rfl, rfl, rfl, rfl, rfl, rfl, rfl, rfl, rfl, rfl, rfl,
   rfl, rfl, rfl, rfl⟩

lemma recentList_length_le (l : List String) (id : String) :
    (addToRecentEntitiesList l id).length ≤ 5 := by
  unfold addToRecentEntitiesList
  rw [List.length_take]
  omega

lemma recentList_nodup {l : List String} (id : String) (h : l.Nodup) :
    (addToRecentEntitiesList l id).Nodup := by
  refine (List.take_sublist 5 _).nodup ?_
  refine List.nodup_cons.mpr ⟨?_, h.filter _⟩
  intro hmem
  exact (by simpa using (List.mem_filter.mp hmem).2)

lemma length_filter_ne_of_mem {l : List String} {id : String}
    (h : l.Nodup) (hm : id ∈ l) :
    (l.filter (fun e => e ≠ id)).length + 1 = l.length := by
  induction l with
  | nil => cases hm
  | cons a t ih =>
    by_cases hai : a = id
    · subst hai
      have hni : a ∉ t := (List.nodup_cons.mp h).1
      rw [List.filter_cons_of_neg (by simp)]
      have hft : t.filter (fun e => e ≠ a) = t := by
        refine List.filter_eq_self.mpr ?_
        intro x hx
        simp only [ne_eq, decide_eq_true_eq]
        exact fun hxa => hni (hxa ▸ hx)
      rw [hft, List.length_cons]
    · have hmt : id ∈ t := by
        rcases List.mem_cons.mp hm with h1 | h2
        · exact absurd h1.symm hai
        · exact h2
      have ihh := ih (List.nodup_cons.mp h).2 hmt
      have hpa : (fun e => decide (e ≠ id)) a = true := by simp [hai]
      rw [List.filter_cons_of_pos (by simpa using hpa)]
      simp only [List.length_cons]
      omega

lemma recentList_foldl_nodup (ids : List String) :
    ∀ l : List String, l.Nodup → (ids.foldl addToRecentEntitiesList l).Nodup := by
  induction ids with
  | nil => intro l h; simpa using h
  | cons a t ih =>
    intro l h
    exact ih _ (recentList_nodup a h)

lemma recentList_foldl_length (ids : List String) :
    ∀ l : List String, l.length ≤ 5 → (ids.foldl addToRecentEntitiesList l).length ≤ 5 := by
  induction ids with
  | nil => intro l h; simpa using h
  | cons a t ih =>
    intro l _
    exact ih _ (recentList_length_le l a)

lemma foldl_addToRecent_recentEntityIds (ids : List String) :
    ∀ s : AppState,
      (ids.foldl addToRecentEntities s).recentEntityIds =
        ids.foldl addToRecentEntitiesList s.recentEntityIds := by
  induction ids with
  | nil => intro s; rfl
  | cons a t ih => intro s; simpa [addToRecentEntities] using ih (addToRecentEntities s a)

/-- Claim C9: `addToRecentEntities` keeps at most 5 distinct ids with the
most recent at the front; adding an id already present moves it to the
front without growing the list, and the invariant holds after every
sequence of calls from a duplicate-free list of length at most 5. -/
theorem addToRecentEntities_invariant (s : AppState) (id : String)
    (hnd : s.recentEntityIds.Nodup) (hlen : s.recentEntityIds.length ≤ 5) :
    (addToRecentEntities s id).recentEntityIds.Nodup ∧
    (addToRecentEntities s id).recentEntityIds.length ≤ 5 ∧
    (addToRecentEntities s id).recentEntityIds.head? = some id ∧
    (id ∈ s.recentEntityIds →
      (addToRecentEntities s id).recentEntityIds.length = s.recentEntityIds.length) ∧
    (∀ ids : List String,
      (ids.foldl addToRecentEntities s).recentEntityIds.Nodup ∧
      (ids.foldl addToRecentEntities s).recentEntityIds.length ≤ 5) := by
  refine ⟨recentList_nodup id hnd, recentList_length_le _ id, ?_, ?_, ?_⟩
  · show ((id :: _).take 5).head? = some id
    simp [List.take_succ_cons]
  · intro hm
    show ((id :: s.recentEntityIds.filter (fun e => e ≠ id)).take 5).length = _
    have hf := length_filter_ne_of_mem hnd hm
    rw [List.length_take, List.length_cons]
    omega
  · intro ids
    rw [foldl_addToRecent_recentEntityIds]
    exact ⟨recentList_foldl_nodup ids _ hnd, recentList_foldl_length ids _ hlen⟩

/-- Claim C9 witness: a concrete run with a repeated id. -/
theorem addToRecentEntities_invariant_witness :
    ∃ s : AppState, s.recentEntityIds = ["a", "b"] ∧
      (addToRecentEntities s "b").recentEntityIds.Nodup ∧
      (addToRecentEntities s "b").recentEntityIds.head? = some "b" ∧
      (addToRecentEntities s "b").recentEntityIds.length = 2 := by
  classical
  refine ⟨{ isLoading := false, lastDiscovery := none, error := none,
            globalConfigPath := "", homeDirectory := "", projects := [],
            settings := [], memory := [], agents := [], skills := [],
            commands := [], hooks := [], plugins := [], mcpServers := [],
            duplicates := [], symlinks := [], activeView := .dashboard,
            selectedEntity := none, searchQuery := "", filterScope := .all,
            filterProject := none, filterTool := .all, isPanelOpen := false,
            theme := .dark, isGlobalSearchOpen := false, globalSearchQuery := "",
            recentEntityIds := ["a", "b"], toasts := [],
            hasInitiallyAnimated := false, previousItemIds := [],
            _cachedSections := none }, rfl, ?_, ?_, ?_⟩
  · exact (addToRecentEntities_invariant _ "b" (by decide) (by decide)).1
  · exact (addToRecentEntities_invariant _ "b" (by decide) (by decide)).2.2.1
  · exact (addToRecentEntities_invariant _ "b" (by decide) (by decide)).2.2.2.1
      (by decide)

/-- Claim C1: `get-project-config-state` follows the §4.5 decision table,
and `can_auto_fix` is true exactly when the classification is not
`conflict`. -/
theorem getProjectConfigState_table (fs : ProjFS) (st : ConfigState)
    (h : getProjectConfigState fs = some st) :
    st.agents_md_status = fs.agentsMd.status ∧
    st.claude_md_status = fs.claudeMd.status ∧
    (fs.claudeMd.status = .symlink → fs.agentsMd.status = .file →
      fs.linkCorrect = true → st.config_state = .correct) ∧
    (fs.claudeMd.status = .missing → fs.agentsMd.status = .file →
      st.config_state = .missing_symlink) ∧
    (fs.claudeMd.status = .file → fs.agentsMd.status = .missing →
      st.config_state = .needs_migration) ∧
    (fs.claudeMd.status = .file → fs.agentsMd.status = .file →
      st.config_state = .conflict) ∧
    (fs.claudeMd.status = .missing → fs.agentsMd.status = .missing →
      st.config_state = .empty) ∧
    (fs.claudeMd.status = .symlink → fs.agentsMd.status = .file →
      fs.linkCorrect = false → st.config_state = .conflict) ∧
    (st.can_auto_fix = true ↔ st.config_state ≠ .conflict) := by
  rcases fs with ⟨cm, am⟩
  rcases hc : (ProjFS.mk cm am).linkCorrect with _ | _ <;>
    cases cm <;> cases am <;>
      simp_all [getProjectConfigState, classifyConfig, FileNode.status,
        canAutoFix, ConfigState.config_state] <;>
    simp_all [← h]

/-- Claim C1 witness: a legacy symlink pointing at the present universal
file is classified `correct` with `can_auto_fix = true`. -/
theorem getProjectConfigState_table_witness :
    ∃ st : ConfigState,
      getProjectConfigState ⟨.symlinkTo "AGENTS.md", .fileContent "hi"⟩ = some st ∧
      st.config_state = .correct ∧ st.can_auto_fix = true := by
  have h : getProjectConfigState ⟨.symlinkTo "AGENTS.md", .fileContent "hi"⟩ =
      some { agents_md_status := .file, claude_md_status := .symlink,
             claude_md_symlink_target := some "AGENTS.md",
             config_state := .correct, can_auto_fix := true } := by decide
  have main := getProjectConfigState_table _ _ h
  exact ⟨_, h, main.2.2.1 (by decide) (by decide) (by decide),
    main.2.2.2.2.2.2.2.2.mpr (by decide)⟩

/-- Claim C8: invoking `fix-project-config` on a project already
classified `correct` leaves the filesystem unchanged and returns success
rather than an error. -/
theorem fixProjectConfig_noop_on_correct (fs : ProjFS) (st : ConfigState)
    (hst : getProjectConfigState fs = some st)
    (hc : st.config_state = .correct) :
    fixProjectConfig fs = .ok (fs, "Already configured correctly") := by
  unfold fixProjectConfig
  rw [hst]
  simp [hc]

/-- Claim C8 witness: the no-op on a concrete correct project. -/
theorem fixProjectConfig_noop_on_correct_witness :
    fixProjectConfig ⟨.symlinkTo "AGENTS.md", .fileContent "hi"⟩ =
      .ok (⟨.symlinkTo "AGENTS.md", .fileContent "hi"⟩,
           "Already configured correctly") :=
  fixProjectConfig_noop_on_correct _
    { agents_md_status := .file, claude_md_status := .symlink,
      claude_md_symlink_target := some "AGENTS.md",
      config_state := .correct, can_auto_fix := true }
    (by decide) rfl

/-- A concrete selected, pending row used by the bulk-fix evaluations. -/
def sampleRow : ProjectFixState :=
  { path := "/home/u/p1", name := "p1", configState := .needs_migration,
    selected := true, status := .pending, message := none }

/-- Claim C2 (bug evaluation): the summary toast of `handleFixSelected`
counts successes and errors over the `projectStates` array captured by the
closure before the loop, where every row is still `pending`; with one
selected project whose fix succeeds it reports "Successfully fixed 0
project(s)" although the final state records one success, and with one
selected project whose fix fails it still posts the success toast with
count 0 although the final state records one error. -/
theorem handleFixSelected_summary_stale :
    (handleFixSelected (fun _ => .ok "Created symlink") [sampleRow]).2 =
      some { type := .success, title := "All configs fixed",
             message := "Successfully fixed 0 project(s)" } ∧
    ((handleFixSelected (fun _ => .ok "Created symlink") [sampleRow]).1.filter
        (fun p => p.status = .success)).length = 1 ∧
    (handleFixSelected (fun _ => .error "permission denied") [sampleRow]).2 =
      some { type := .success, title := "All configs fixed",
             message := "Successfully fixed 0 project(s)" } ∧
    ((handleFixSelected (fun _ => .error "permission denied") [sampleRow]).1.filter
        (fun p => p.status = .error)).length = 1 := by
  refine ⟨rfl, rfl, rfl, rfl⟩

lemma applyOutcome_path (f : String → Except String String) (p : ProjectFixState) :
    (applyOutcome f p).path = p.path := by
  unfold applyOutcome
  cases f p.path <;> rfl

lemma applyOutcome_idem (f : String → Except String String) (p : ProjectFixState) :
    applyOutcome f (applyOutcome f p) = applyOutcome f p := by
  unfold applyOutcome
  cases hf : f p.path <;> simp [hf]

lemma runFixes_eq_map (f : String → Except String String) :
    ∀ (toFix states : List ProjectFixState),
      runFixes f states toFix =
        states.map (fun p =>
          if p.path ∈ toFix.map ProjectFixState.path then applyOutcome f p else p) := by
  intro toFix
  induction toFix with
  | nil =>
    intro states
    simp [runFixes]
  | cons project rest ih =>
    intro states
    show runFixes f _ rest = _
    rw [ih]
    cases hf : f project.path <;>
    · rw [List.map_map, List.map_map]
      refine List.map_congr_left ?_
      intro p _
      by_cases hp : p.path = project.path <;>
        simp [Function.comp, hp, hf, applyOutcome, List.mem_cons]

/-- Claim C6: during a bulk fix every selected project is attempted
independently — each selected row ends in the status and message
determined by its own fix outcome, unselected rows are untouched, and no
failure aborts the batch. -/
theorem handleFixSelected_continue_on_error
    (f : String → Except String String) (states : List ProjectFixState)
    (h : (states.map ProjectFixState.path).Nodup) :
    (handleFixSelected f states).1 =
      states.map (fun p => if p.selected then applyOutcome f p else p) := by
  unfold handleFixSelected
  by_cases h0 : (states.filter (fun p => p.selected)).length = 0
  · rw [if_pos h0]
    have hnone : ∀ p ∈ states, ¬ p.selected = true := by
      intro p hp hsel
      have : p ∈ states.filter (fun p => p.selected) :=
        List.mem_filter.mpr ⟨hp, by simpa using hsel⟩
      rw [List.length_eq_zero.mp h0] at this
      cases this
    show states = _
    symm
    refine List.map_congr_left ?_ |>.trans states.map_id
    intro p hp
    simp [hnone p hp]
  · rw [if_neg h0]
    show runFixes f states (states.filter (fun p => p.selected)) = _
    rw [runFixes_eq_map]
    refine List.map_congr_left ?_
    intro p hp
    have hiff : (p.path ∈ (states.filter (fun p => p.selected)).map ProjectFixState.path)
        ↔ p.selected = true := by
      constructor
      · intro hmem
        rcases List.mem_map.mp hmem with ⟨q, hq, hqp⟩
        have hq' := List.mem_filter.mp hq
        have : q = p := List.inj_on_of_nodup_map h hq'.1 hp hqp
        rw [← this]
        simpa using hq'.2
      · intro hsel
        exact List.mem_map.mpr ⟨p, List.mem_filter.mpr ⟨hp, by simpa using hsel⟩, rfl⟩
    by_cases hsel : p.selected = true
    · rw [if_pos (hiff.mpr hsel), if_pos hsel]
    · rw [if_neg (fun hmem => hsel (hiff.mp hmem)), if_neg hsel]

/-- Claim C6 witness: three selected projects where the middle fix fails;
the failure is recorded on that row only and the remaining fixes still
run. -/
theorem handleFixSelected_continue_on_error_witness :
    (handleFixSelected
        (fun path => if path = "/p2" then .error "nope" else .ok "done")
        [{ sampleRow with path := "/p1" },
         { sampleRow with path := "/p2" },
         { sampleRow with path := "/p3" }]).1 =
      [{ sampleRow with path := "/p1", status := .success, message := some "done" },
       { sampleRow with path := "/p2", status := .error, message := some "nope" },
       { sampleRow with path := "/p3", status := .success, message := some "done" }] := by
  rw [handleFixSelected_continue_on_error
    (fun path => if path = "/p2" then .error "nope" else .ok "done")
    [{ sampleRow with path := "/p1" },
     { sampleRow with path := "/p2" },
     { sampleRow with path := "/p3" }] (by decide)]
  rfl

/-- Specificity rank of a serialised member scope (smaller is more
specific). -/
def scopeStrRank (s : String) : Nat :=
  if s = "local" then 0 else if s = "project" then 1 else 2

lemma scopeStrRank_scopeName (s : ScopeLevel) :
    scopeStrRank (scopeName s) = scopeRank s := by
  cases s <;> rfl

lemma orderByScope_perm (l : List RawEntity) : (orderByScope l).Perm l := by
  induction l with
  | nil => simp [orderByScope]
  | cons e t ih =>
    unfold orderByScope at ih ⊢
    cases hs : e.scope
    case localOverride =>
      simp only [List.filter_cons, hs]
      simp
      simpa [List.append_assoc] using ih
    case project =>
      simp only [List.filter_cons, hs]
      simp only [decide_eq_true_eq, reduceCtorEq, Bool.false_eq_true, if_false,
        if_true]
      refine List.Perm.trans ?_ (ih.cons e)
      have h1 : (t.filter (fun e => e.scope = ScopeLevel.localOverride) ++
            e :: t.filter (fun e => e.scope = ScopeLevel.project)) ++
            t.filter (fun e => e.scope = ScopeLevel.global) =
          t.filter (fun e => e.scope = ScopeLevel.localOverride) ++
            e :: (t.filter (fun e => e.scope = ScopeLevel.project) ++
              t.filter (fun e => e.scope = ScopeLevel.global)) := by simp
      have h2 : e :: (t.filter (fun e => e.scope = ScopeLevel.localOverride) ++
            t.filter (fun e => e.scope = ScopeLevel.project) ++
            t.filter (fun e => e.scope = ScopeLevel.global)) =
          e :: (t.filter (fun e => e.scope = ScopeLevel.localOverride) ++
            (t.filter (fun e => e.scope = ScopeLevel.project) ++
              t.filter (fun e => e.scope = ScopeLevel.global))) := by simp
      rw [h1, h2]
      exact List.perm_middle
    case global =>
      simp only [List.filter_cons, hs]
      simp only [decide_eq_true_eq, reduceCtorEq, Bool.false_eq_true, if_false,
        if_true]
      refine List.Perm.trans ?_ (ih.cons e)
      have h2 : e :: (t.filter (fun e => e.scope = ScopeLevel.localOverride) ++
            t.filter (fun e => e.scope = ScopeLevel.project) ++
            t.filter (fun e => e.scope = ScopeLevel.global)) =
          e :: ((t.filter (fun e => e.scope = ScopeLevel.localOverride) ++
            t.filter (fun e => e.scope = ScopeLevel.project)) ++
              t.filter (fun e => e.scope = ScopeLevel.global)) := by simp
      rw [h2]
      exact List.perm_middle

lemma assignRanks_length (l : List RawEntity) :
    ∀ n, (assignRanks l n).length = l.length := by
  induction l with
  | nil => intro n; rfl
  | cons e t ih => intro n; simp [assignRanks, ih]

lemma assignRanks_map_precedence (l : List RawEntity) :
    ∀ n, (assignRanks l n).map DuplicateEntity.precedence = List.range' n l.length := by
  induction l with
  | nil => intro n; rfl
  | cons e t ih =>
    intro n
    simp [assignRanks, List.range'_succ, ih, toMember]

lemma assignRanks_map_id (l : List RawEntity) :
    ∀ n, (assignRanks l n).map DuplicateEntity.id = l.map RawEntity.id := by
  induction l with
  | nil => intro n; rfl
  | cons e t ih => intro n; simp [assignRanks, ih, toMember]

lemma assignRanks_precedence_ge (l : List RawEntity) :
    ∀ n, ∀ m ∈ assignRanks l n, n ≤ m.precedence := by
  induction l with
  | nil => intro n m hm; cases hm
  | cons e t ih =>
    intro n m hm
    rcases List.mem_cons.mp hm with rfl | hm'
    · exact Nat.le_refl n
    · exact Nat.le_of_succ_le (ih (n + 1) m hm')

lemma assignRanks_mem_scope (l : List RawEntity) :
    ∀ n, ∀ m ∈ assignRanks l n, ∃ e ∈ l, m.scope = scopeName e.scope := by
  induction l with
  | nil => intro n m hm; cases hm
  | cons e t ih =>
    intro n m hm
    rcases List.mem_cons.mp hm with rfl | hm'
    · exact ⟨e, List.mem_cons_self e t, rfl⟩
    · obtain ⟨e', he', hs⟩ := ih (n + 1) m hm'
      exact ⟨e', List.mem_cons_of_mem e he', hs⟩

lemma assignRanks_rank_zero (e : RawEntity) (t : List RawEntity) (m : DuplicateEntity)
    (hm : m ∈ assignRanks (e :: t) 0) (h0 : m.precedence = 0) :
    m = toMember e 0 := by
  rcases List.mem_cons.mp hm with rfl | hm'
  · rfl
  · have := assignRanks_precedence_ge t 1 m hm'
    omega

lemma orderByScope_head_min (l : List RawEntity) (e : RawEntity) (t : List RawEntity)
    (h : orderByScope l = e :: t) :
    ∀ x ∈ l, scopeRank e.scope ≤ scopeRank x.scope := by
  intro x hx
  unfold orderByScope at h
  cases hA : l.filter (fun e => e.scope = .localOverride) with
  | cons a ta =>
    rw [hA, List.cons_append, List.cons_append] at h
    injection h with h1 _
    have hamem : a ∈ l.filter (fun e => e.scope = ScopeLevel.localOverride) := by
      rw [hA]; exact List.mem_cons_self a ta
    have ha : a.scope = ScopeLevel.localOverride :=
      of_decide_eq_true (List.mem_filter.mp hamem).2
    rw [← h1, ha]
    exact Nat.zero_le _
  | nil =>
    rw [hA, List.nil_append] at h
    have hnA : ∀ y ∈ l, ¬ y.scope = ScopeLevel.localOverride := by
      intro y hy hys
      have : y ∈ l.filter (fun e => e.scope = .localOverride) :=
        List.mem_filter.mpr ⟨hy, by simpa using hys⟩
      rw [hA] at this
      cases this
    cases hB : l.filter (fun e => e.scope = .project) with
    | cons b tb =>
      rw [hB, List.cons_append] at h
      injection h with h1 _
      have hbmem : b ∈ l.filter (fun e => e.scope = ScopeLevel.project) := by
        rw [hB]; exact List.mem_cons_self b tb
      have hb : b.scope = ScopeLevel.project :=
        of_decide_eq_true (List.mem_filter.mp hbmem).2
      rw [← h1, hb]
      cases hxs : x.scope
      · exact absurd hxs (hnA x hx)
      · exact Nat.le_refl _
      · exact Nat.le_of_lt (by decide)
    | nil =>
      rw [hB, List.nil_append] at h
      have hemem : e ∈ l.filter (fun e => e.scope = ScopeLevel.global) := by
        rw [h]; exact List.mem_cons_self e t
      have he : e.scope = ScopeLevel.global :=
        of_decide_eq_true (List.mem_filter.mp hemem).2
      have hnB : ∀ y ∈ l, ¬ y.scope = ScopeLevel.project := by
        intro y hy hys
        have : y ∈ l.filter (fun e => e.scope = .project) :=
          List.mem_filter.mpr ⟨hy, by simpa using hys⟩
        rw [hB] at this
        cases this
      rw [he]
      cases hxs : x.scope
      · exact absurd hxs (hnA x hx)
      · exact absurd hxs (hnB x hx)
      · exact Nat.le_refl _

lemma mem_dedupFirstAux (k : EntityType × String) :
    ∀ (l seen : List (EntityType × String)),
      (k ∈ dedupFirstAux seen l ↔ k ∈ l ∧ k ∉ seen) := by
  intro l
  induction l with
  | nil => intro seen; simp [dedupFirstAux]
  | cons a t ih =>
    intro seen
    unfold dedupFirstAux
    by_cases ha : a ∈ seen
    · rw [if_pos ha, ih seen]
      constructor
      · rintro ⟨h1, h2⟩
        exact ⟨List.mem_cons_of_mem a h1, h2⟩
      · rintro ⟨h1, h2⟩
        rcases List.mem_cons.mp h1 with rfl | h1'
        · exact absurd ha h2
        · exact ⟨h1', h2⟩
    · rw [if_neg ha]
      constructor
      · intro hm
        rcases List.mem_cons.mp hm with rfl | hm'
        · exact ⟨List.mem_cons_self k t, ha⟩
        · obtain ⟨h1, h2⟩ := (ih (a :: seen)).mp hm'
          exact ⟨List.mem_cons_of_mem a h1,
            fun hs => h2 (List.mem_cons_of_mem a hs)⟩
      · rintro ⟨h1, h2⟩
        rcases List.mem_cons.mp h1 with rfl | h1'
        · exact List.mem_cons_self k _
        · by_cases hka : k = a
          · subst hka; exact List.mem_cons_self k _
          · exact List.mem_cons_of_mem a
              ((ih (a :: seen)).mpr ⟨h1', by simp [hka, h2]⟩)

/-- Claim C7: every duplicate group holds at least two entities, exactly
the groupable entities sharing its (kind, name) key, with dense 0-based
precedence ranks, and the rank-0 member sits at the most specific scope
present in the group — for every input entity list, hence independently
of discovery or iteration order; moreover a group exists for every key
shared by at least two groupable entities. -/
theorem findDuplicates_invariants (all : List RawEntity) :
    (∀ g ∈ findDuplicates all,
      2 ≤ g.entities.length ∧
      g.entities.map DuplicateEntity.precedence = List.range g.entities.length ∧
      (g.entities.map DuplicateEntity.id).Perm
        (((all.filter isGroupable).filter
            (fun e => dupKey e = (g.entity_type, g.name))).map RawEntity.id) ∧
      (∀ m ∈ g.entities, m.precedence = 0 →
        ∀ m' ∈ g.entities, scopeStrRank m.scope ≤ scopeStrRank m'.scope)) ∧
    (∀ t n, 2 ≤ ((all.filter isGroupable).filter
        (fun e => dupKey e = (t, n))).length →
      ∃ g ∈ findDuplicates all, g.entity_type = t ∧ g.name = n) := by
  constructor
  · intro g hg
    unfold findDuplicates at hg
    obtain ⟨k, _, hfk⟩ := List.mem_filterMap.mp hg
    by_cases h2 : 2 ≤ ((all.filter isGroupable).filter (fun e => dupKey e = k)).length
    · rw [if_pos h2] at hfk
      obtain rfl := Option.some.inj hfk
      refine ⟨?_, ?_, ?_, ?_⟩
      · rw [assignRanks_length,
          (orderByScope_perm ((all.filter isGroupable).filter
            (fun e => dupKey e = k))).length_eq]
        exact h2
      · rw [assignRanks_map_precedence, assignRanks_length, List.range_eq_range']
      · rw [assignRanks_map_id]
        exact ((orderByScope_perm _).map RawEntity.id)
      · intro m hm h0 m' hm'
        cases horder : orderByScope ((all.filter isGroupable).filter
            (fun e => dupKey e = k)) with
        | nil =>
          rw [horder] at hm
          cases hm
        | cons e t =>
          rw [horder] at hm hm'
          have hme := assignRanks_rank_zero e t m hm h0
          obtain ⟨e', he', hs'⟩ := assignRanks_mem_scope (e :: t) 0 m' hm'
          have he'' : e' ∈ (all.filter isGroupable).filter (fun e => dupKey e = k) :=
            (orderByScope_perm _).mem_iff.mp (horder ▸ he')
          have hmin := orderByScope_head_min _ e t horder e' he''
          rw [hme, hs']
          show scopeStrRank (scopeName e.scope) ≤ scopeStrRank (scopeName e'.scope)
          rw [scopeStrRank_scopeName, scopeStrRank_scopeName]
          exact hmin
    · rw [if_neg h2] at hfk
      cases hfk
  · intro t n h2
    have hpos : 0 < ((all.filter isGroupable).filter
        (fun e => dupKey e = (t, n))).length := by omega
    obtain ⟨x, hx⟩ := List.exists_mem_of_length_pos hpos
    have hx' := List.mem_filter.mp hx
    have hkmem : (t, n) ∈ (all.filter isGroupable).map dupKey := by
      refine List.mem_map.mpr ⟨x, hx'.1, ?_⟩
      simpa using hx'.2
    refine ⟨{ name := n, entity_type := t,
              entities := assignRanks (orderByScope
                ((all.filter isGroupable).filter (fun e => dupKey e = (t, n)))) 0 },
            ?_, rfl, rfl⟩
    unfold findDuplicates
    refine List.mem_filterMap.mpr ⟨(t, n), ?_, ?_⟩
    · exact (mem_dedupFirstAux (t, n) _ []).mpr ⟨hkmem, by simp⟩
    · rw [if_pos h2]

/-- A global "reviewer" agent used by the duplicate-resolver witness. -/
def reviewerGlobal : RawEntity :=
  { id := "agent-g", entityType := .agent, name := "reviewer",
    scope := .global, path := "/home/u/.claude/agents/reviewer.md",
    project_path := none }

/-- A project-scoped "reviewer" agent used by the duplicate-resolver
witness. -/
def reviewerProj : RawEntity :=
  { id := "agent-p", entityType := .agent, name := "reviewer",
    scope := .project, path := "/home/u/proj/.claude/agents/reviewer.md",
    project_path := some "/home/u/proj" }

/-- Claim C7 witness: two same-named agents at different scopes produce a
group satisfying the invariants, with the project-scoped one at rank 0. -/
theorem findDuplicates_invariants_witness :
    ∃ g ∈ findDuplicates [reviewerGlobal, reviewerProj],
      2 ≤ g.entities.length ∧
      g.entities.map DuplicateEntity.precedence = List.range g.entities.length ∧
      (∀ m ∈ g.entities, m.precedence = 0 →
        ∀ m' ∈ g.entities, scopeStrRank m.scope ≤ scopeStrRank m'.scope) := by
  obtain ⟨g, hg, _, _⟩ :=
    (findDuplicates_invariants [reviewerGlobal, reviewerProj]).2 .agent "reviewer"
      (by decide)
  have props := (findDuplicates_invariants [reviewerGlobal, reviewerProj]).1 g hg
  exact ⟨g, hg, props.1, props.2.1, props.2.2.2⟩

/-- Claim C3 (amended): `parseFrontmatter` returns `frontmatter = null`
with the entire input as body exactly when the input does not begin with
the delimiter or has no closing delimiter; a delimited but malformed
metadata block instead degrades to a non-null (possibly empty) record of
the parseable lines — the function is total and never throws. -/
theorem parseFrontmatter_absent_block (content : String) :
    ((¬ jsStartsWith content "---" = true ∨ jsIndexOf content "---" 3 = none) →
      parseFrontmatter content = ⟨none, content⟩) ∧
    ((parseFrontmatter content).frontmatter = none ↔
      (¬ jsStartsWith content "---" = true ∨ jsIndexOf content "---" 3 = none)) := by
  unfold parseFrontmatter
  by_cases hs : jsStartsWith content "---" = true
  · rw [if_neg (by simpa using hs)]
    cases hidx : jsIndexOf content "---" 3 <;> simp [hs, hidx]
  · rw [if_pos (by simpa using hs)]
    simp [hs]

/-- Claim C3 witness: concrete inputs without a block and without a
closing delimiter are returned whole with null frontmatter. -/
theorem parseFrontmatter_absent_block_witness :
    parseFrontmatter "no block here" = ⟨none, "no block here"⟩ ∧
    parseFrontmatter "---\nunclosed" = ⟨none, "---\nunclosed"⟩ :=
  ⟨(parseFrontmatter_absent_block "no block here").1 (Or.inl (by decide)),
   (parseFrontmatter_absent_block "---\nunclosed").1 (Or.inr (by decide))⟩

/-- Claim C3 counterexample: a well-delimited but malformed metadata block
("garbage" has no `key: value` line) does not yield `frontmatter = null`
with the whole input as body — it yields an empty non-null record and the
trimmed tail as body. -/
theorem parseFrontmatter_malformed_counterexample :
    parseFrontmatter "---\ngarbage\n---\nbody" = ⟨some [], "body"⟩ ∧
    (parseFrontmatter "---\ngarbage\n---\nbody").frontmatter ≠ none ∧
    (parseFrontmatter "---\ngarbage\n---\nbody").body ≠ "---\ngarbage\n---\nbody" := by
  refine ⟨by decide, by decide, by decide⟩

/-- Claim C4 (amended): the value typing of `parseFrontmatter` follows the
grammar with this precedence: a comma-containing value not starting with a
double quote is split as an inline list (single-quoted values are not
exempt); a double-quoted value, or a comma-free single-quoted value, is
unquoted; the literals `true`/`false` become booleans; a comma-free,
unquoted value accepted by `Number` becomes that number; every other
value stays the bare string. -/
theorem typeValue_grammar (v : String) :
    (jsStartsWith v "\"" = true → jsEndsWith v "\"" = true →
      typeValue v = .str (jsSliceDropEnds v)) ∧
    (jsIncludes v "," = true → jsStartsWith v "\"" = false →
      typeValue v = .list ((jsSplitChar ',' v).map jsTrim)) ∧
    (jsIncludes v "," = false →
      jsStartsWith v (String.mk [squote]) = true →
      jsEndsWith v (String.mk [squote]) = true →
      ¬ (jsStartsWith v "\"" = true ∧ jsEndsWith v "\"" = true) →
      typeValue v = .str (jsSliceDropEnds v)) ∧
    (v = "true" → typeValue v = .boolean true) ∧
    (v = "false" → typeValue v = .boolean false) ∧
    (∀ n, jsIncludes v "," = false →
      ¬ (jsStartsWith v "\"" = true ∧ jsEndsWith v "\"" = true) →
      ¬ (jsStartsWith v (String.mk [squote]) = true ∧
         jsEndsWith v (String.mk [squote]) = true) →
      jsStringToNumber v = some n → typeValue v = .num n) ∧
    (jsIncludes v "," = false →
      ¬ (jsStartsWith v "\"" = true ∧ jsEndsWith v "\"" = true) →
      ¬ (jsStartsWith v (String.mk [squote]) = true ∧
         jsEndsWith v (String.mk [squote]) = true) →
      v ≠ "true" → v ≠ "false" →
      jsStringToNumber v = none → typeValue v = .str v) := by
  refine ⟨?_, ?_, ?_, ?_, ?_, ?_, ?_⟩
  · intro h1 h2
    unfold typeValue
    rw [if_neg (by simp [h1]), if_pos ⟨h1, h2⟩]
  · intro h1 h2
    unfold typeValue
    rw [if_pos ⟨h1, by simp [h2]⟩]
  · intro hc hq1 hq2 hdq
    unfold typeValue
    rw [if_neg (by simp [hc]), if_neg hdq, if_pos ⟨hq1, hq2⟩]
  · rintro rfl; rfl
  · rintro rfl; rfl
  · intro n hc hdq hsq hnum
    have hvt : v ≠ "true" := by
      rintro rfl
      rw [show jsStringToNumber "true" = none from by decide] at hnum
      cases hnum
    have hvf : v ≠ "false" := by
      rintro rfl
      rw [show jsStringToNumber "false" = none from by decide] at hnum
      cases hnum
    unfold typeValue
    rw [if_neg (by simp [hc]), if_neg hdq, if_neg hsq, if_neg hvt, if_neg hvf,
      hnum]
  · intro hc hdq hsq hvt hvf hnum
    unfold typeValue
    rw [if_neg (by simp [hc]), if_neg hdq, if_neg hsq, if_neg hvt, if_neg hvf,
      hnum]

/-- Claim C4 witness: concrete values of each kind typed by the grammar. -/
theorem typeValue_grammar_witness :
    typeValue "\"quoted, text\"" = .str "quoted, text" ∧
    typeValue "a, b" = .list ["a", "b"] ∧
    typeValue "true" = .boolean true ∧
    (∃ n, jsStringToNumber "42" = some n ∧ typeValue "42" = .num n) ∧
    typeValue "hello" = .str "hello" :=
  ⟨(typeValue_grammar "\"quoted, text\"").1 (by decide) (by decide),
   (typeValue_grammar "a, b").2.1 (by decide) (by decide),
   (typeValue_grammar "true").2.2.2.1 rfl,
   ⟨_, rfl, (typeValue_grammar "42").2.2.2.2.2.1 _ (by decide) (by decide)
     (by decide) rfl⟩,
   (typeValue_grammar "hello").2.2.2.2.2.2 (by decide) (by decide) (by decide)
     (by decide) (by decide) (by decide)⟩

/-- Claim C4 counterexample: the single-quoted value `'a, b'` is a quoted
value, yet the parser splits it as an inline list (retaining the quote
characters in the items) instead of yielding the unquoted string. -/
theorem typeValue_quoted_counterexample :
    typeValue (String.mk [squote] ++ "a, b" ++ String.mk [squote]) =
      .list [String.mk [squote, 'a'], "b" ++ String.mk [squote]] ∧
    typeValue (String.mk [squote] ++ "a, b" ++ String.mk [squote]) ≠ .str "a, b" ∧
    parseFrontmatter
        ("---\nkey: " ++ String.mk [squote] ++ "a, b" ++ String.mk [squote] ++
          "\n---\nx") =
      ⟨some [("key", .list [String.mk [squote, 'a'], "b" ++ String.mk [squote]])],
       "x"⟩ := by
  refine ⟨by decide, by decide, by decide⟩

/-!
## Round-trip of `createMarkdownContent` through `parseFrontmatter`

Helper predicates describing the inputs on which the round-trip holds,
and the supporting lemmas about the string primitives.
-/

/-- The first character (if any) is not JavaScript whitespace. -/
def noLeadWS : List Char → Bool
  | [] => true
  | c :: _ => !jsWhitespace c

/-- `s` is unchanged by `trim`: no leading and no trailing whitespace. -/
abbrev trimStable (s : String) : Prop :=
  noLeadWS s.data = true ∧ noLeadWS s.data.reverse = true

/-- No occurrence of three consecutive dashes (the delimiter). -/
def noTriple : List Char → Bool
  | [] => true
  | c :: t => !(c = '-' && ['-', '-'].isPrefixOf t) && noTriple t

/-- A key the generated block parses back verbatim: non-empty, trimmed,
and free of colons, newlines and `---`. -/
abbrev goodKey (k : String) : Prop :=
  k ≠ "" ∧ trimStable k ∧ ':' ∉ k.data ∧ '\n' ∉ k.data ∧ noTriple k.data = true

/-- A value the generated block parses back verbatim as a bare string:
non-empty, trimmed, free of commas, colons, quotes, hashes, newlines and
`---`, not a boolean literal, and rejected by `Number`. -/
abbrev goodVal (v : String) : Prop :=
  v ≠ "" ∧ trimStable v ∧
  ',' ∉ v.data ∧ ':' ∉ v.data ∧ '"' ∉ v.data ∧ squote ∉ v.data ∧
  '#' ∉ v.data ∧ '\n' ∉ v.data ∧ noTriple v.data = true ∧
  v ≠ "true" ∧ v ≠ "false" ∧ jsStringToNumber v = none

lemma string_ne_empty_iff (s : String) : s ≠ "" ↔ s.data ≠ [] := by
  cases s with
  | mk l =>
    constructor
    · intro h hd
      exact h (by rw [show l = [] from hd])
    · intro h he
      exact h (congrArg String.data he)

lemma dropWhile_noLead (l : List Char) (h : noLeadWS l = true) :
    l.dropWhile jsWhitespace = l := by
  cases l with
  | nil => rfl
  | cons c t =>
    have : jsWhitespace c = false := by
      simpa [noLeadWS] using h
    simp [List.dropWhile_cons, this]

lemma jsTrim_eq_self (s : String) (h : trimStable s) : jsTrim s = s := by
  unfold jsTrim
  rw [dropWhile_noLead _ h.1, dropWhile_noLead _ h.2, List.reverse_reverse]

lemma noLeadWS_append (a b : List Char) (ha : a ≠ []) :
    noLeadWS (a ++ b) = noLeadWS a := by
  cases a with
  | nil => exact absurd rfl ha
  | cons c t => rfl

lemma noTriple_tail {c : Char} {t : List Char} (h : noTriple (c :: t) = true) :
    noTriple t = true := by
  have h' := h
  unfold noTriple at h'
  simp only [Bool.and_eq_true] at h'
  exact h'.2

lemma twoDash_prefix_append (a : List Char) (x : Char) (b : List Char)
    (hx : x ≠ '-') (h : ['-', '-'].isPrefixOf (a ++ x :: b) = true) :
    ['-', '-'].isPrefixOf a = true := by
  match a with
  | [] =>
    exfalso
    simp [List.isPrefixOf] at h
    exact hx h.1.symm
  | [y] =>
    exfalso
    simp [List.isPrefixOf] at h
    exact hx h.2.symm
  | y :: z :: a' =>
    simp [List.isPrefixOf] at h ⊢
    exact ⟨h.1, h.2⟩

lemma noTriple_append_sep (x : Char) (hx : x ≠ '-') :
    ∀ (a b : List Char), noTriple a = true → noTriple b = true →
      noTriple (a ++ x :: b) = true := by
  intro a
  induction a with
  | nil =>
    intro b _ hb
    unfold noTriple
    simp [hx, hb]
  | cons c a' ih =>
    intro b ha hb
    have ha' : noTriple a' = true := noTriple_tail ha
    have hstep : ¬ (c = '-' ∧ ['-', '-'].isPrefixOf (a' ++ x :: b) = true) := by
      rintro ⟨rfl, hpre⟩
      have h2 := twoDash_prefix_append a' x b hx hpre
      have := ha
      unfold noTriple at this
      rw [Bool.and_eq_true] at this
      simp [h2] at this
    show noTriple (c :: (a' ++ x :: b)) = true
    unfold noTriple
    rw [Bool.and_eq_true]
    refine ⟨?_, ih b ha' hb⟩
    by_cases hc : c = '-'
    · subst hc
      have : ['-', '-'].isPrefixOf (a' ++ x :: b) = false := by
        by_contra hq
        exact hstep ⟨rfl, by simpa using hq⟩
      simp [this]
    · simp [hc]

lemma jsIndexOfAux_cons_pos (needle hay : List Char) (i : Nat)
    (h : needle.isPrefixOf hay = true) :
    jsIndexOfAux needle hay i = some i := by
  unfold jsIndexOfAux
  rw [if_pos (by simp [h])]

lemma jsIndexOfAux_cons_step (needle : List Char) (x : Char) (t : List Char) (i : Nat)
    (h : needle.isPrefixOf (x :: t) = false) :
    jsIndexOfAux needle (x :: t) i = jsIndexOfAux needle t (i + 1) := by
  conv_lhs => unfold jsIndexOfAux
  rw [if_neg (by simp [h])]

lemma jsIndexOfAux_nil (needle : List Char) (i : Nat) (h : needle ≠ []) :
    jsIndexOfAux needle [] i = none := by
  unfold jsIndexOfAux
  rw [if_neg]
  cases needle with
  | nil => exact absurd rfl h
  | cons n ns => simp [List.isPrefixOf]

lemma jsIndexOfAux_single_none (c : Char) :
    ∀ (l : List Char) (i : Nat), c ∉ l → jsIndexOfAux [c] l i = none := by
  intro l
  induction l with
  | nil =>
    intro i _
    exact jsIndexOfAux_nil [c] i (by simp)
  | cons x t ih =>
    intro i h
    have hcx : ¬ c = x := fun hh => h (hh ▸ List.mem_cons_self x t)
    rw [jsIndexOfAux_cons_step [c] x t i (by simp [List.isPrefixOf, hcx])]
    exact ih (i + 1) (fun hm => h (List.mem_cons_of_mem x hm))

lemma jsIncludes_single_none (s sub : String) (c : Char) (hsub : sub.data = [c])
    (h : c ∉ s.data) : jsIncludes s sub = false := by
  unfold jsIncludes jsIndexOf
  rw [hsub, jsIndexOfAux_single_none c _ 0 (by simpa using h)]
  rfl

lemma jsIndexOfAux_single_found (c : Char) :
    ∀ (a : List Char) (b : List Char) (i : Nat), c ∉ a →
      jsIndexOfAux [c] (a ++ c :: b) i = some (i + a.length) := by
  intro a
  induction a with
  | nil =>
    intro b i _
    rw [List.nil_append, jsIndexOfAux_cons_pos [c] (c :: b) i (by simp [List.isPrefixOf])]
    simp
  | cons x a' ih =>
    intro b i h
    have hcx : ¬ c = x := fun hh => h (hh ▸ List.mem_cons_self x a')
    rw [List.cons_append,
      jsIndexOfAux_cons_step [c] x (a' ++ c :: b) i (by simp [List.isPrefixOf, hcx]),
      ih b (i + 1) (fun hm => h (List.mem_cons_of_mem x hm))]
    simp only [List.length_cons, Option.some.injEq]
    omega

lemma jsStartsWith_single_false (s sub : String) (c : Char) (hsub : sub.data = [c])
    (h : c ∉ s.data) : jsStartsWith s sub = false := by
  unfold jsStartsWith
  rw [hsub]
  cases hd : s.data with
  | nil => simp [List.isPrefixOf]
  | cons x t =>
    have : ¬ c = x := fun hh => h (by rw [hd, hh]; exact List.mem_cons_self x t)
    simp [List.isPrefixOf, this]

lemma noTriple_cons_iff (c : Char) (t : List Char) :
    noTriple (c :: t) = (!(c = '-' && ['-', '-'].isPrefixOf t) && noTriple t) := rfl

lemma isPrefixOf_append_right (p a s : List Char) (h : p.isPrefixOf a = true) :
    p.isPrefixOf (a ++ s) = true := by
  rw [List.isPrefixOf_iff_prefix] at h ⊢
  exact h.trans (List.prefix_append a s)

lemma jsIndexOfAux_marker :
    ∀ (a : List Char) (rest : List Char) (i : Nat),
      noTriple (a ++ ['\n']) = true →
      jsIndexOfAux ['-', '-', '-'] (a ++ '\n' :: '-' :: '-' :: '-' :: rest) i =
        some (i + a.length + 1) := by
  intro a
  induction a with
  | nil =>
    intro rest i _
    rw [List.nil_append,
      jsIndexOfAux_cons_step ['-', '-', '-'] '\n' _ i (by simp [List.isPrefixOf]),
      jsIndexOfAux_cons_pos ['-', '-', '-'] _ (i + 1) (by simp [List.isPrefixOf])]
    simp
  | cons c a' ih =>
    intro rest i ha
    have hsplit : (!(decide (c = '-') && ['-', '-'].isPrefixOf (a' ++ ['\n'])) &&
        noTriple (a' ++ ['\n'])) = true := by
      rw [← noTriple_cons_iff, ← List.cons_append]
      exact ha
    simp only [Bool.and_eq_true, Bool.not_eq_true'] at hsplit
    obtain ⟨hnotdash, ha'⟩ := hsplit
    have hnp : ['-', '-', '-'].isPrefixOf
        (c :: (a' ++ '\n' :: '-' :: '-' :: '-' :: rest)) = false := by
      by_contra hqq
      have hq1 : ['-', '-', '-'].isPrefixOf
          (c :: (a' ++ '\n' :: '-' :: '-' :: '-' :: rest)) = true := by
        revert hqq
        cases ['-', '-', '-'].isPrefixOf
          (c :: (a' ++ '\n' :: '-' :: '-' :: '-' :: rest)) <;> simp
      rw [show (['-', '-', '-'].isPrefixOf
          (c :: (a' ++ '\n' :: '-' :: '-' :: '-' :: rest))) =
          (('-' == c) && ['-', '-'].isPrefixOf
            (a' ++ '\n' :: '-' :: '-' :: '-' :: rest)) from rfl] at hq1
      simp only [Bool.and_eq_true, beq_iff_eq] at hq1
      obtain ⟨hcd, hpre⟩ := hq1
      have h2 := twoDash_prefix_append a' '\n' _ (by decide) hpre
      have hpre' := isPrefixOf_append_right ['-', '-'] a' ['\n'] h2
      rw [show c = '-' from hcd.symm] at hnotdash
      simp [hpre'] at hnotdash
    rw [List.cons_append,
      jsIndexOfAux_cons_step ['-', '-', '-'] c _ i hnp,
      ih rest (i + 1) ha']
    simp only [List.length_cons, Option.some.injEq]
    omega

lemma splitOnChar_ne_nil (c : Char) (l : List Char) : splitOnChar c l ≠ [] := by
  cases l with
  | nil => simp [splitOnChar]
  | cons x t =>
    unfold splitOnChar
    cases splitOnChar c t with
    | nil => simp
    | cons h r =>
      by_cases hx : x = c <;> simp [hx]

lemma splitOnChar_no_sep (c : Char) :
    ∀ (a : List Char), c ∉ a → splitOnChar c a = [a] := by
  intro a
  induction a with
  | nil => intro _; rfl
  | cons x t ih =>
    intro h
    have hx : ¬ x = c := fun hh => h (hh ▸ List.mem_cons_self x t)
    have iht := ih (fun hm => h (List.mem_cons_of_mem x hm))
    unfold splitOnChar
    rw [iht]
    simp [hx]

lemma splitOnChar_append_sep (c : Char) :
    ∀ (a b : List Char), c ∉ a →
      splitOnChar c (a ++ c :: b) = a :: splitOnChar c b := by
  intro a
  induction a with
  | nil =>
    intro b _
    rw [List.nil_append]
    cases hsp : splitOnChar c b with
    | nil => exact absurd hsp (splitOnChar_ne_nil c b)
    | cons h r =>
      conv_lhs => unfold splitOnChar
      rw [hsp]
      simp
  | cons x a' ih =>
    intro b h
    have hx : ¬ x = c := fun hh => h (hh ▸ List.mem_cons_self x a')
    have iha := ih b (fun hm => h (List.mem_cons_of_mem x hm))
    rw [List.cons_append]
    conv_lhs => unfold splitOnChar
    rw [iha]
    simp [hx]

lemma joinSep_cons_of_ne (sep x : String) (ls : List String) (h : ls ≠ []) :
    joinSep sep (x :: ls) = x ++ sep ++ joinSep sep ls := by
  cases ls with
  | nil => exact absurd rfl h
  | cons y t => rfl

lemma joinSep_data_ne_nil (y : String) (ls : List String) (hy : y.data ≠ []) :
    (joinSep "\n" (y :: ls)).data ≠ [] := by
  cases ls with
  | nil => exact hy
  | cons z t =>
    rw [joinSep_cons_of_ne _ _ _ (by simp)]
    simp only [String.data_append]
    intro hcontra
    rcases List.append_eq_nil.mp hcontra with ⟨h1, _⟩
    rcases List.append_eq_nil.mp h1 with ⟨h2, _⟩
    exact hy h2

lemma take_append_len (a : List Char) :
    ∀ (b : List Char) (n : Nat), (a ++ b).take (a.length + n) = a ++ b.take n := by
  induction a with
  | nil => intro b n; simp
  | cons x a' ih =>
    intro b n
    rw [List.cons_append, List.length_cons,
      show a'.length + 1 + n = (a'.length + n) + 1 by omega,
      List.take_succ_cons, ih b n, List.cons_append]

lemma drop_append_len (a : List Char) :
    ∀ (b : List Char) (n : Nat), (a ++ b).drop (a.length + n) = b.drop n := by
  induction a with
  | nil => intro b n; simp
  | cons x a' ih =>
    intro b n
    rw [List.cons_append, List.length_cons,
      show a'.length + 1 + n = (a'.length + n) + 1 by omega,
      List.drop_succ_cons, ih b n]

lemma line_data (k v : String) :
    (k ++ ": " ++ v).data = k.data ++ ':' :: ' ' :: v.data := by
  simp [String.data_append]

lemma line_trimStable (k v : String) (hk : goodKey k) (hv : goodVal v) :
    trimStable (k ++ ": " ++ v) := by
  have hkne : k.data ≠ [] := (string_ne_empty_iff k).mp hk.1
  have hvne : v.data ≠ [] := (string_ne_empty_iff v).mp hv.1
  constructor
  · rw [line_data, noLeadWS_append _ _ hkne]
    exact hk.2.1.1
  · rw [line_data,
      show k.data ++ ':' :: ' ' :: v.data = (k.data ++ [':', ' ']) ++ v.data by simp,
      List.reverse_append, noLeadWS_append _ _ (by simpa using hvne)]
    exact hv.2.1.2

lemma noTriple_line (k v : String) (hk : goodKey k) (hv : goodVal v) :
    noTriple (k ++ ": " ++ v).data = true := by
  rw [line_data]
  refine noTriple_append_sep ':' (by decide) _ _ hk.2.2.2.2 ?_
  have : (' ' :: v.data) = [] ++ ' ' :: v.data := rfl
  rw [this]
  exact noTriple_append_sep ' ' (by decide) [] v.data rfl hv.2.2.2.2.2.2.2.2.1

lemma noTriple_joinSep (ls : List String) (h : ∀ l ∈ ls, noTriple l.data = true) :
    noTriple (joinSep "\n" ls).data = true := by
  induction ls with
  | nil => rfl
  | cons x t ih =>
    cases t with
    | nil => exact h x (List.mem_cons_self x [])
    | cons y t' =>
      rw [joinSep_cons_of_ne _ _ _ (by simp)]
      simp only [String.data_append, List.append_assoc, List.singleton_append]
      exact noTriple_append_sep '\n' (by decide) _ _
        (h x (List.mem_cons_self x _))
        (ih (fun l hl => h l (List.mem_cons_of_mem x hl)))

lemma splitOnChar_joinSep (ls : List String) (hne : ls ≠ [])
    (h : ∀ l ∈ ls, '\n' ∉ l.data) :
    splitOnChar '\n' (joinSep "\n" ls).data = ls.map String.data := by
  induction ls with
  | nil => exact absurd rfl hne
  | cons x t ih =>
    cases t with
    | nil =>
      show splitOnChar '\n' x.data = [x.data]
      exact splitOnChar_no_sep '\n' x.data (h x (List.mem_cons_self x []))
    | cons y t' =>
      rw [joinSep_cons_of_ne _ _ _ (by simp)]
      simp only [String.data_append, List.append_assoc, List.singleton_append]
      rw [splitOnChar_append_sep '\n' _ _ (h x (List.mem_cons_self x _))]
      rw [ih (by simp) (fun l hl => h l (List.mem_cons_of_mem x hl))]
      rfl

lemma map_mk_data (ls : List String) : (ls.map String.data).map String.mk = ls := by
  induction ls with
  | nil => rfl
  | cons x t ih =>
    show String.mk x.data :: (t.map String.data).map String.mk = x :: t
    rw [ih]

lemma joinSep_noLead (x : String) (ls : List String) (hx : x.data ≠ []) :
    noLeadWS (joinSep "\n" (x :: ls)).data = noLeadWS x.data := by
  cases ls with
  | nil => rfl
  | cons y t =>
    rw [joinSep_cons_of_ne _ _ _ (by simp)]
    simp only [String.data_append]
    rw [List.append_assoc, noLeadWS_append _ _ hx]

lemma joinSep_reverse_noLead :
    ∀ (ls : List String) (x : String), (∀ l ∈ x :: ls, l.data ≠ []) →
      (∀ l ∈ x :: ls, noLeadWS l.data.reverse = true) →
      noLeadWS (joinSep "\n" (x :: ls)).data.reverse = true := by
  intro ls
  induction ls with
  | nil =>
    intro x _ hrev
    exact hrev x (List.mem_cons_self x [])
  | cons y t ih =>
    intro x hne hrev
    rw [joinSep_cons_of_ne _ _ _ (by simp)]
    simp only [String.data_append, List.append_assoc, List.singleton_append]
    have hrevshape :
        (x.data ++ '\n' :: (joinSep "\n" (y :: t)).data).reverse =
          (joinSep "\n" (y :: t)).data.reverse ++ '\n' :: x.data.reverse := by
      simp
    rw [hrevshape, noLeadWS_append _ _ (by
      simp only [ne_eq, List.reverse_eq_nil_iff]
      exact joinSep_data_ne_nil y t (hne y (by simp)))]
    exact ih y (fun l hl => hne l (List.mem_cons_of_mem x hl))
      (fun l hl => hrev l (List.mem_cons_of_mem x hl))

lemma jsTrim_newline_wrap (M : List Char) (h1 : noLeadWS M = true)
    (h2 : noLeadWS M.reverse = true) :
    jsTrim (String.mk ('\n' :: M ++ ['\n'])) = String.mk M := by
  unfold jsTrim
  show String.mk ((('\n' :: M ++ ['\n']).dropWhile
    jsWhitespace).reverse.dropWhile jsWhitespace).reverse = _
  rw [List.cons_append, List.dropWhile_cons, if_pos (by decide)]
  cases M with
  | nil => rfl
  | cons c M' =>
    have hc : jsWhitespace c = false := by simpa [noLeadWS] using h1
    rw [List.cons_append, List.dropWhile_cons, if_neg (by simp [hc]),
      ← List.cons_append, List.reverse_append,
      show (['\n'] : List Char).reverse = ['\n'] from rfl,
      List.singleton_append, List.dropWhile_cons, if_pos (by decide),
      dropWhile_noLead _ h2, List.reverse_reverse]

lemma jsTrim_space_prefix (v : String) (hv : trimStable v) :
    jsTrim (String.mk (' ' :: v.data)) = v := by
  unfold jsTrim
  show String.mk (((' ' :: v.data).dropWhile
    jsWhitespace).reverse.dropWhile jsWhitespace).reverse = _
  rw [List.dropWhile_cons, if_pos (by decide), dropWhile_noLead _ hv.1,
    dropWhile_noLead _ hv.2, List.reverse_reverse]

lemma jsTrim_double_newline_prefix (b : String) (hb : trimStable b) :
    jsTrim (String.mk ('\n' :: '\n' :: b.data)) = b := by
  unfold jsTrim
  show String.mk ((('\n' :: '\n' :: b.data).dropWhile
    jsWhitespace).reverse.dropWhile jsWhitespace).reverse = _
  rw [List.dropWhile_cons, if_pos (by decide), List.dropWhile_cons,
    if_pos (by decide), dropWhile_noLead _ hb.1,
    dropWhile_noLead _ hb.2, List.reverse_reverse]

lemma typeValue_bare (v : String) (hv : goodVal v) : typeValue v = .str v := by
  obtain ⟨hne, hts, hcm, hcl, hdq, hsq, hhash, hnl, htr, hvt, hvf, hnum⟩ := hv
  unfold typeValue
  rw [if_neg (by simp [jsIncludes_single_none v "," ',' rfl hcm])]
  rw [if_neg (by
    rintro ⟨h1, _⟩
    rw [jsStartsWith_single_false v "\"" '"' rfl hdq] at h1
    cases h1)]
  rw [if_neg (by
    rintro ⟨h1, _⟩
    rw [jsStartsWith_single_false v (String.mk [squote]) squote rfl hsq] at h1
    cases h1)]
  rw [if_neg hvt, if_neg hvf, hnum]

lemma genLines_str_eq (k v : String) (hv : goodVal v) :
    genLines k (.str v) = [k ++ ": " ++ v] := by
  obtain ⟨hne, hts, hcm, hcl, hdq, hsq, hhash, hnl, htr, hvt, hvf, hnum⟩ := hv
  have hdef : genLines k (.str v) =
      if jsIncludes v ":" = true ∨ jsIncludes v "#" = true ∨
          jsIncludes v "\n" = true then
        [k ++ ": \"" ++ escapeQuotes v ++ "\""]
      else [k ++ ": " ++ v] := rfl
  rw [hdef]
  rw [if_neg (by
    rintro (h | h | h)
    · rw [jsIncludes_single_none v ":" ':' rfl hcl] at h; cases h
    · rw [jsIncludes_single_none v "#" '#' rfl hhash] at h; cases h
    · rw [jsIncludes_single_none v "\n" '\n' rfl hnl] at h; cases h)]

lemma flatMap_genLines (data : List (String × String))
    (hv : ∀ p ∈ data, goodVal p.2) :
    (data.map (fun p => (p.1, GenValue.str p.2))).flatMap
        (fun p => genLines p.1 p.2) =
      data.map (fun p => p.1 ++ ": " ++ p.2) := by
  induction data with
  | nil => rfl
  | cons p t ih =>
    simp only [List.map_cons, List.flatMap_cons]
    rw [genLines_str_eq p.1 p.2 (hv p (List.mem_cons_self p t)),
      ih (fun q hq => hv q (List.mem_cons_of_mem p hq))]
    rfl

lemma drop_one_cons (x y : Char) (l : List Char) :
    (x :: y :: l).drop 1 = y :: l := rfl

set_option maxRecDepth 4000 in
lemma fmStep_line (lines : List String) (fm : List (String × FmValue)) (ck : String)
    (av : List String) (k v : String) (hk : goodKey k) (hv : goodVal v) :
    fmStep lines ⟨fm, ck, false, av⟩ (k ++ ": " ++ v) =
      ⟨objInsert fm k (FmValue.str v), ck, false, av⟩ := by
  have htrim : jsTrim (k ++ ": " ++ v) = k ++ ": " ++ v :=
    jsTrim_eq_self _ (line_trimStable k v hk hv)
  have hkdne : k.data ≠ [] := (string_ne_empty_iff k).mp hk.1
  have hidx : jsIndexOf (k ++ ": " ++ v) ":" 0 = some k.length := by
    unfold jsIndexOf
    rw [show (":" : String).data = [':'] from rfl, List.drop_zero, line_data,
      jsIndexOfAux_single_found ':' k.data (' ' :: v.data) 0 hk.2.2.1]
    simp only [Nat.zero_add]
    rfl
  have hkey : jsTrim (jsSlice (k ++ ": " ++ v) 0 k.length) = k := by
    unfold jsSlice
    rw [show String.length k = k.data.length from rfl, line_data,
      List.drop_zero, Nat.sub_zero, List.take_left,
      show String.mk k.data = k from rfl]
    exact jsTrim_eq_self k hk.2.1
  have hval : jsTrim (jsSliceFrom (k ++ ": " ++ v) (k.length + 1)) = v := by
    unfold jsSliceFrom
    rw [show String.length k = k.data.length from rfl, line_data,
      drop_append_len k.data (':' :: ' ' :: v.data) 1, drop_one_cons]
    exact jsTrim_space_prefix v hv.2.1
  have hklen : ¬ k.length = 0 := fun h0 => hkdne (List.length_eq_zero.mp h0)
  unfold fmStep
  simp only [htrim, hidx, hkey, hval]
  rw [typeValue_bare v hv]
  rw [if_neg hklen]
  simp [hv.1]

lemma foldl_fmStep_good (lines : List String) :
    ∀ (rest : List (String × String)) (fm : List (String × FmValue)) (ck : String)
      (av : List String),
      (∀ p ∈ rest, goodKey p.1) → (∀ p ∈ rest, goodVal p.2) →
      (∀ p ∈ rest, ∀ q ∈ fm, q.1 ≠ p.1) →
      (rest.map Prod.fst).Nodup →
      List.foldl (fmStep lines) ⟨fm, ck, false, av⟩
          (rest.map (fun p => p.1 ++ ": " ++ p.2)) =
        ⟨fm ++ rest.map (fun p => (p.1, FmValue.str p.2)), ck, false, av⟩ := by
  intro rest
  induction rest with
  | nil =>
    intro fm ck av _ _ _ _
    simp
  | cons p t ih =>
    intro fm ck av hk hv hfresh hnodup
    simp only [List.map_cons, List.foldl_cons]
    rw [fmStep_line lines fm ck av p.1 p.2 (hk p (List.mem_cons_self p t))
      (hv p (List.mem_cons_self p t))]
    have hobj : objInsert fm p.1 (FmValue.str p.2) = fm ++ [(p.1, FmValue.str p.2)] := by
      unfold objInsert
      rw [if_neg (by
        intro hany
        obtain ⟨q, hq, hq1⟩ := List.any_eq_true.mp hany
        exact hfresh p (List.mem_cons_self p t) q hq (of_decide_eq_true hq1))]
    rw [hobj]
    rw [ih (fm ++ [(p.1, FmValue.str p.2)]) ck av
      (fun q hq => hk q (List.mem_cons_of_mem p hq))
      (fun q hq => hv q (List.mem_cons_of_mem p hq))
      (by
        intro r hr q hq
        rcases List.mem_append.mp hq with hq1 | hq2
        · exact hfresh r (List.mem_cons_of_mem p hr) q hq1
        · have hq3 : q = (p.1, FmValue.str p.2) := by simpa using hq2
          rw [hq3]
          intro hcon
          have hp1 : p.1 ∈ t.map Prod.fst := List.mem_map.mpr ⟨r, hr, hcon.symm⟩
          have hnd := hnodup
          rw [List.map_cons] at hnd
          exact (List.nodup_cons.mp hnd).1 hp1)
      (by
        have hnd := hnodup
        rw [List.map_cons] at hnd
        exact (List.nodup_cons.mp hnd).2)]
    simp

lemma joinSep_append_last (sep last : String) :
    ∀ (ls : List String), ls ≠ [] →
      joinSep sep (ls ++ [last]) = joinSep sep ls ++ sep ++ last := by
  intro ls
  induction ls with
  | nil => intro h; exact absurd rfl h
  | cons x t ih =>
    intro _
    cases t with
    | nil => rfl
    | cons y t' =>
      rw [List.cons_append, joinSep_cons_of_ne _ _ _ (by simp),
        joinSep_cons_of_ne _ _ _ (by simp), ih (by simp)]
      simp [String.append_assoc]

lemma line_no_newline (k v : String) (hk : goodKey k) (hv : goodVal v) :
    '\n' ∉ (k ++ ": " ++ v).data := by
  rw [line_data]
  intro hm
  rcases List.mem_append.mp hm with h1 | h2
  · exact hk.2.2.2.1 h1
  · rcases List.mem_cons.mp h2 with he | h3
    · cases he
    · rcases List.mem_cons.mp h3 with he2 | h4
      · cases he2
      · exact hv.2.2.2.2.2.2.2.1 h4

lemma line_data_ne_nil (k v : String) : (k ++ ": " ++ v).data ≠ [] := by
  rw [line_data]
  intro h
  rcases List.append_eq_nil.mp h with ⟨_, h2⟩
  cases h2

lemma content_data_shape (data : List (String × String)) (hne : data ≠ [])
    (hv : ∀ p ∈ data, goodVal p.2) (body : String) :
    (createMarkdownContent (data.map (fun p => (p.1, GenValue.str p.2))) body).data =
      '-' :: '-' :: '-' :: '\n' ::
        ((joinSep "\n" (data.map (fun p => p.1 ++ ": " ++ p.2))).data ++
          '\n' :: '-' :: '-' :: '-' :: '\n' :: '\n' :: body.data) := by
  unfold createMarkdownContent generateFrontmatter
  rw [flatMap_genLines data hv]
  have h1 : (["---"] ++ data.map (fun p => p.1 ++ ": " ++ p.2) ++ ["---"]) =
      "---" :: (data.map (fun p => p.1 ++ ": " ++ p.2) ++ ["---"]) := by simp
  rw [h1, joinSep_cons_of_ne _ _ _ (by
      intro hcon
      rcases List.append_eq_nil.mp hcon with ⟨_, h3⟩
      cases h3),
    joinSep_append_last "\n" "---" _ (by simpa using hne)]
  simp only [String.data_append]
  simp

/-- Claim C5 (amended): parsing the generated document returns exactly the
record and the body, for every flat record with distinct, non-empty,
trimmed keys free of colons, newlines and `---`, whose values are
non-empty, trimmed, free of commas, colons, quotes, hashes, newlines and
`---`, are not `true`/`false` and are not numeric, and every trimmed body
containing no `---`. -/
theorem createMarkdown_parse_roundtrip (data : List (String × String)) (body : String)
    (hkeys : (data.map Prod.fst).Nodup)
    (hk : ∀ p ∈ data, goodKey p.1)
    (hv : ∀ p ∈ data, goodVal p.2)
    (hbody : trimStable body)
    (_hbodyd : jsIncludes body "---" = false) :
    parseFrontmatter (createMarkdownContent
        (data.map (fun p => (p.1, GenValue.str p.2))) body) =
      ⟨some (data.map (fun p => (p.1, FmValue.str p.2))), body⟩ := by
  rcases data with _ | ⟨p, t⟩
  · have hshape : (createMarkdownContent
        (([] : List (String × String)).map (fun p => (p.1, GenValue.str p.2)))
          body).data =
        '-' :: '-' :: '-' :: '\n' :: '-' :: '-' :: '-' :: '\n' :: '\n' :: body.data := by
      rw [show createMarkdownContent
          (([] : List (String × String)).map (fun p => (p.1, GenValue.str p.2)))
            body = "---\n---" ++ "\n\n" ++ body from rfl]
      simp only [String.data_append]
      rfl
    have hstart : jsStartsWith (createMarkdownContent
        (([] : List (String × String)).map (fun p => (p.1, GenValue.str p.2)))
          body) "---" = true := by
      unfold jsStartsWith
      rw [hshape, show ("---" : String).data = ['-', '-', '-'] from rfl]
      simp [List.isPrefixOf]
    have hidx : jsIndexOf (createMarkdownContent
        (([] : List (String × String)).map (fun p => (p.1, GenValue.str p.2)))
          body) "---" 3 = some 4 := by
      unfold jsIndexOf
      rw [show ("---" : String).data = ['-', '-', '-'] from rfl, hshape,
        show ('-' :: '-' :: '-' :: '\n' :: '-' :: '-' :: '-' :: '\n' :: '\n' ::
          body.data : List Char).drop 3 =
          ([] : List Char) ++ '\n' :: '-' :: '-' :: '-' :: ('\n' :: '\n' :: body.data)
          from rfl,
        jsIndexOfAux_marker [] _ 3 (by decide)]
      rfl
    have hyaml : jsTrim (jsSlice (createMarkdownContent
        (([] : List (String × String)).map (fun p => (p.1, GenValue.str p.2)))
          body) 3 4) = "" := by
      unfold jsSlice
      rw [hshape, show (('-' :: '-' :: '-' :: '\n' :: '-' :: '-' :: '-' :: '\n' ::
        '\n' :: body.data : List Char).drop 3).take (4 - 3) = ['\n'] from rfl]
      decide
    have hbody' : jsTrim (jsSliceFrom (createMarkdownContent
        (([] : List (String × String)).map (fun p => (p.1, GenValue.str p.2)))
          body) (4 + 3)) = body := by
      unfold jsSliceFrom
      rw [hshape, show ('-' :: '-' :: '-' :: '\n' :: '-' :: '-' :: '-' :: '\n' ::
        '\n' :: body.data : List Char).drop (4 + 3) = '\n' :: '\n' :: body.data
        from rfl]
      exact jsTrim_double_newline_prefix body hbody
    unfold parseFrontmatter
    rw [if_neg (fun hno => hno hstart), hidx]
    simp only [hyaml, hbody']
    rfl
  · have hkp : goodKey p.1 := hk p (List.mem_cons_self p t)
    have hvp : goodVal p.2 := hv p (List.mem_cons_self p t)
    have hl_nn : ∀ l ∈ (p :: t).map (fun q => q.1 ++ ": " ++ q.2), '\n' ∉ l.data := by
      intro l hl
      obtain ⟨q, hq, rfl⟩ := List.mem_map.mp hl
      exact line_no_newline q.1 q.2 (hk q hq) (hv q hq)
    have hl_nt : ∀ l ∈ (p :: t).map (fun q => q.1 ++ ": " ++ q.2),
        noTriple l.data = true := by
      intro l hl
      obtain ⟨q, hq, rfl⟩ := List.mem_map.mp hl
      exact noTriple_line q.1 q.2 (hk q hq) (hv q hq)
    have hl_ne : ∀ l ∈ ((p.1 ++ ": " ++ p.2) :: t.map (fun q => q.1 ++ ": " ++ q.2)),
        l.data ≠ [] := by
      intro l hl
      rcases List.mem_cons.mp hl with rfl | hl2
      · exact line_data_ne_nil p.1 p.2
      · obtain ⟨q, _, rfl⟩ := List.mem_map.mp hl2
        exact line_data_ne_nil q.1 q.2
    have hl_rev : ∀ l ∈ ((p.1 ++ ": " ++ p.2) :: t.map (fun q => q.1 ++ ": " ++ q.2)),
        noLeadWS l.data.reverse = true := by
      intro l hl
      rcases List.mem_cons.mp hl with rfl | hl2
      · exact (line_trimStable p.1 p.2 hkp hvp).2
      · obtain ⟨q, hq, rfl⟩ := List.mem_map.mp hl2
        exact (line_trimStable q.1 q.2 (hk q (List.mem_cons_of_mem p hq))
          (hv q (List.mem_cons_of_mem p hq))).2
    have hM_nt : noTriple (joinSep "\n"
        ((p :: t).map (fun q => q.1 ++ ": " ++ q.2))).data = true :=
      noTriple_joinSep _ hl_nt
    have hM_lead : noLeadWS (joinSep "\n"
        ((p :: t).map (fun q => q.1 ++ ": " ++ q.2))).data = true := by
      rw [List.map_cons, joinSep_noLead _ _ (line_data_ne_nil p.1 p.2)]
      exact (line_trimStable p.1 p.2 hkp hvp).1
    have hM_rev : noLeadWS (joinSep "\n"
        ((p :: t).map (fun q => q.1 ++ ": " ++ q.2))).data.reverse = true := by
      rw [List.map_cons]
      exact joinSep_reverse_noLead _ _ hl_ne hl_rev
    have hshape := content_data_shape (p :: t) (by simp) hv body
    have hstart : jsStartsWith (createMarkdownContent
        ((p :: t).map (fun q => (q.1, GenValue.str q.2))) body) "---" = true := by
      unfold jsStartsWith
      rw [hshape, show ("---" : String).data = ['-', '-', '-'] from rfl]
      simp [List.isPrefixOf]
    have hidx : jsIndexOf (createMarkdownContent
        ((p :: t).map (fun q => (q.1, GenValue.str q.2))) body) "---" 3 =
        some ((joinSep "\n" ((p :: t).map (fun q => q.1 ++ ": " ++ q.2))).data.length
          + 5) := by
      unfold jsIndexOf
      rw [show ("---" : String).data = ['-', '-', '-'] from rfl, hshape,
        show ('-' :: '-' :: '-' :: '\n' ::
          ((joinSep "\n" ((p :: t).map (fun q => q.1 ++ ": " ++ q.2))).data ++
            '\n' :: '-' :: '-' :: '-' :: '\n' :: '\n' :: body.data) : List Char).drop 3
          = '\n' :: ((joinSep "\n" ((p :: t).map (fun q => q.1 ++ ": " ++ q.2))).data ++
            '\n' :: '-' :: '-' :: '-' :: '\n' :: '\n' :: body.data) from rfl,
        show '\n' :: ((joinSep "\n" ((p :: t).map (fun q => q.1 ++ ": " ++ q.2))).data ++
            '\n' :: '-' :: '-' :: '-' :: '\n' :: '\n' :: body.data) =
          ('\n' :: (joinSep "\n" ((p :: t).map (fun q => q.1 ++ ": " ++ q.2))).data) ++
            '\n' :: '-' :: '-' :: '-' :: ('\n' :: '\n' :: body.data) by simp,
        jsIndexOfAux_marker _ _ 3 (by
          rw [List.cons_append, noTriple_cons_iff]
          have hM1 : noTriple ((joinSep "\n"
              ((p :: t).map (fun q => q.1 ++ ": " ++ q.2))).data ++ ['\n']) = true := by
            have := noTriple_append_sep '\n' (by decide)
              (joinSep "\n" ((p :: t).map (fun q => q.1 ++ ": " ++ q.2))).data [] hM_nt rfl
            simpa using this
          simp only [List.map_cons] at hM1
          simp [hM1])]
      simp only [List.length_cons, Option.some.injEq]
      omega
    have hslice : jsTrim (jsSlice (createMarkdownContent
        ((p :: t).map (fun q => (q.1, GenValue.str q.2))) body) 3
        ((joinSep "\n" ((p :: t).map (fun q => q.1 ++ ": " ++ q.2))).data.length + 5)) =
        String.mk (joinSep "\n" ((p :: t).map (fun q => q.1 ++ ": " ++ q.2))).data := by
      unfold jsSlice
      rw [hshape]
      have htake : (('-' :: '-' :: '-' :: '\n' ::
          ((joinSep "\n" ((p :: t).map (fun q => q.1 ++ ": " ++ q.2))).data ++
            '\n' :: '-' :: '-' :: '-' :: '\n' :: '\n' :: body.data) : List Char).drop 3).take
          ((joinSep "\n" ((p :: t).map (fun q => q.1 ++ ": " ++ q.2))).data.length + 5 - 3) =
          '\n' :: (joinSep "\n" ((p :: t).map (fun q => q.1 ++ ": " ++ q.2))).data ++ ['\n'] := by
        rw [show (('-' :: '-' :: '-' :: '\n' ::
          ((joinSep "\n" ((p :: t).map (fun q => q.1 ++ ": " ++ q.2))).data ++
            '\n' :: '-' :: '-' :: '-' :: '\n' :: '\n' :: body.data) : List Char).drop 3) =
          '\n' :: ((joinSep "\n" ((p :: t).map (fun q => q.1 ++ ": " ++ q.2))).data ++
            '\n' :: '-' :: '-' :: '-' :: '\n' :: '\n' :: body.data) from rfl,
          show (joinSep "\n" ((p :: t).map (fun q => q.1 ++ ": " ++ q.2))).data.length + 5 - 3 =
            ((joinSep "\n" ((p :: t).map (fun q => q.1 ++ ": " ++ q.2))).data.length + 1) + 1
            by omega,
          List.take_succ_cons, take_append_len]
        simp
      rw [htake]
      exact jsTrim_newline_wrap _ hM_lead hM_rev
    have hbody' : jsTrim (jsSliceFrom (createMarkdownContent
        ((p :: t).map (fun q => (q.1, GenValue.str q.2))) body)
        ((joinSep "\n" ((p :: t).map (fun q => q.1 ++ ": " ++ q.2))).data.length + 5 + 3)) =
        body := by
      unfold jsSliceFrom
      rw [hshape]
      have hdrop : (('-' :: '-' :: '-' :: '\n' ::
          ((joinSep "\n" ((p :: t).map (fun q => q.1 ++ ": " ++ q.2))).data ++
            '\n' :: '-' :: '-' :: '-' :: '\n' :: '\n' :: body.data) : List Char)).drop
          ((joinSep "\n" ((p :: t).map (fun q => q.1 ++ ": " ++ q.2))).data.length + 5 + 3) =
          '\n' :: '\n' :: body.data := by
        rw [show ('-' :: '-' :: '-' :: '\n' ::
          ((joinSep "\n" ((p :: t).map (fun q => q.1 ++ ": " ++ q.2))).data ++
            '\n' :: '-' :: '-' :: '-' :: '\n' :: '\n' :: body.data) : List Char) =
          ('-' :: '-' :: '-' :: '\n' ::
            (joinSep "\n" ((p :: t).map (fun q => q.1 ++ ": " ++ q.2))).data ++
            ['\n', '-', '-', '-']) ++ '\n' :: '\n' :: body.data by simp,
          show (joinSep "\n" ((p :: t).map (fun q => q.1 ++ ": " ++ q.2))).data.length + 5 + 3 =
            ('-' :: '-' :: '-' :: '\n' ::
              (joinSep "\n" ((p :: t).map (fun q => q.1 ++ ": " ++ q.2))).data ++
              ['\n', '-', '-', '-'] : List Char).length + 0 by simp,
          drop_append_len, List.drop_zero]
      rw [hdrop]
      exact jsTrim_double_newline_prefix body hbody
    have hlines : jsSplitChar '\n'
        (String.mk (joinSep "\n" ((p :: t).map (fun q => q.1 ++ ": " ++ q.2))).data) =
        (p :: t).map (fun q => q.1 ++ ": " ++ q.2) := by
      unfold jsSplitChar
      rw [show (String.mk (joinSep "\n"
          ((p :: t).map (fun q => q.1 ++ ": " ++ q.2))).data).data =
        (joinSep "\n" ((p :: t).map (fun q => q.1 ++ ": " ++ q.2))).data from rfl,
        splitOnChar_joinSep _ (by simp) hl_nn, map_mk_data]
    have hfold := foldl_fmStep_good ((p :: t).map (fun q => q.1 ++ ": " ++ q.2))
      (p :: t) [] "" [] hk hv (by intro r _ q hq; cases hq) hkeys
    unfold parseFrontmatter
    rw [if_neg (fun hno => hno hstart), hidx]
    simp only [hslice, hbody', hlines]
    rw [hfold]
    simp

/-- Claim C5 witness: a concrete two-key record and body survive the
round trip. -/
theorem createMarkdown_parse_roundtrip_witness :
    parseFrontmatter (createMarkdownContent
        ([("name", "my-agent"), ("description", "hello world")].map
          (fun p => (p.1, GenValue.str p.2))) "Body text.") =
      ⟨some ([("name", "my-agent"), ("description", "hello world")].map
        (fun p => (p.1, FmValue.str p.2))), "Body text."⟩ :=
  createMarkdown_parse_roundtrip
    [("name", "my-agent"), ("description", "hello world")] "Body text."
    (by decide) (by decide) (by decide) (by decide) (by decide)

/-- Claim C5 counterexample: the round trip fails inside the claim's
stated domain — a value containing `---` truncates the block, a value
with trailing whitespace is trimmed away, and a key containing a colon is
split at the wrong place. -/
theorem createMarkdown_parse_roundtrip_counterexample :
    parseFrontmatter (createMarkdownContent [("key", GenValue.str "a---b")] "body") ≠
      ⟨some [("key", FmValue.str "a---b")], "body"⟩ ∧
    parseFrontmatter (createMarkdownContent [("key", GenValue.str "a ")] "body") ≠
      ⟨some [("key", FmValue.str "a ")], "body"⟩ ∧
    parseFrontmatter (createMarkdownContent [("a:b", GenValue.str "v")] "body") ≠
      ⟨some [("a:b", FmValue.str "v")], "body"⟩ := by
  refine ⟨by decide, by decide, by decide⟩
